import Mathlib

/-!
# Verification of the telemt-pannel Middle-End RPC transport

A shallow embedding, in Lean 4, of the middle-proxy RPC transport of the
`telemt-pannel` proxy (`src/transport/middle_proxy.rs`) and of its config
hot-reload watcher (`src/config/hot_reload.rs`), together with theorems
settling the specification's claims about the frame codec, the streaming
decoder, the connection registry, the writer pool and the hot-reload
contract.

Bytes are modelled as `Nat` values below 256, byte strings as `List Nat`,
machine integers as `Nat`/`Int` with explicit reduction modulo `2^32`/`2^64`
where the Rust code relies on fixed-width behaviour.  Fallible operations
return `Except`/`Option`.  The AES-CBC block cipher and the opcode constants
live outside `src/` (`crate::crypto`, `crate::protocol::constants`), so they
enter the embedding as opaque parameters; CRC-32, which the spec pins down as
IEEE CRC-32, is defined concretely.
-/

set_option maxRecDepth 40000
set_option maxHeartbeats 1000000

deriving instance DecidableEq for Except

namespace Telemt

/-! ## Little-endian integer codecs -/

/-- Embeds `u32::to_le_bytes`: the four little-endian bytes of a 32-bit value. -/
def u32le (n : Nat) : List Nat :=
  [n % 256, n / 256 % 256, n / 65536 % 256, n / 16777216 % 256]

/-- Embeds `u64::to_le_bytes`: the eight little-endian bytes of a 64-bit value. -/
def u64le (n : Nat) : List Nat :=
  [n % 256, n / 256 % 256, n / 65536 % 256, n / 16777216 % 256,
   n / 4294967296 % 256, n / 1099511627776 % 256,
   n / 281474976710656 % 256, n / 72057594037927936 % 256]

/-- Embeds `u32::from_le_bytes` applied to the first four entries of a byte list. -/
def fromLe4 (l : List Nat) : Nat :=
  l.getD 0 0 + 256 * l.getD 1 0 + 65536 * l.getD 2 0 + 16777216 * l.getD 3 0

/-- Embeds `i32::from_le_bytes` applied to the first four entries of a byte list:
the unsigned value re-interpreted in two's complement. -/
def i32ofBytes (l : List Nat) : Int :=
  let u := fromLe4 l
  if u < 2147483648 then (u : Int) else (u : Int) - 4294967296

/-- Embeds `i32::to_le_bytes`: two's-complement little-endian bytes of a signed
32-bit value. -/
def i32le (s : Int) : List Nat := u32le (s % 4294967296).toNat

/-- Embeds `i64::from_le_bytes` applied to the first eight entries of a byte list. -/
def i64ofBytes (l : List Nat) : Int :=
  let u := l.getD 0 0 + 256 * l.getD 1 0 + 65536 * l.getD 2 0 + 16777216 * l.getD 3 0
    + 4294967296 * l.getD 4 0 + 1099511627776 * l.getD 5 0
    + 281474976710656 * l.getD 6 0 + 72057594037927936 * l.getD 7 0
  if u < 9223372036854775808 then (u : Int) else (u : Int) - 18446744073709551616

/-- Embeds `u64::from_le_bytes` applied to the first eight entries of a byte list. -/
def fromLe8 (l : List Nat) : Nat :=
  l.getD 0 0 + 256 * l.getD 1 0 + 65536 * l.getD 2 0 + 16777216 * l.getD 3 0
    + 4294967296 * l.getD 4 0 + 1099511627776 * l.getD 5 0
    + 281474976710656 * l.getD 6 0 + 72057594037927936 * l.getD 7 0

/-! ## CRC-32

Modelled from the spec: `crate::crypto::crc32` is not under `src/`; §6 of the
spec fixes it as "IEEE CRC-32" (the zlib polynomial), which is the reflected
CRC with polynomial `0xEDB88320`, initial value `0xFFFFFFFF` and final
complement. -/

/-- One shift-and-conditional-xor round of the reflected IEEE CRC-32. -/
def crcRound (s : Nat) : Nat :=
  if s % 2 = 1 then s / 2 ^^^ 0xEDB88320 else s / 2

/-- Absorb one input byte into the CRC state: xor it in, then run eight
rounds. -/
def crcByteStep (s b : Nat) : Nat := crcRound^[8] (s ^^^ b)

/-- Run the CRC state machine over a byte list from state `s`. -/
def crc32run (s : Nat) (l : List Nat) : Nat := l.foldl crcByteStep s

/-- IEEE CRC-32 of a byte list (`crate::crypto::crc32`). -/
def crc32 (l : List Nat) : Nat := crc32run 0xFFFFFFFF l ^^^ 0xFFFFFFFF

/-! ## RPC frame codec (`build_rpc_frame`, `read_rpc_frame_plaintext`) -/

/-- Embeds `build_rpc_frame`: `[total_len(4 LE) | seq_no(4 LE) | payload | crc32(4 LE)]`,
where `total_len = 4 + 4 + payload.len() + 4` and the CRC covers everything
before it. -/
def build_rpc_frame (seq_no : Int) (payload : List Nat) : List Nat :=
  let total_len := 4 + 4 + payload.length + 4
  let f := u32le total_len ++ i32le seq_no ++ payload
  f ++ u32le (crc32 f)

/-- The failure modes of `read_rpc_frame_plaintext`. -/
inductive FrameError where
  /-- A `read_exact` found too few bytes on the stream (`ProxyError::Io`). -/
  | ioShort : FrameError
  /-- Embeds `ProxyError::InvalidHandshake("Bad RPC frame length: …")`. -/
  | badLength (l : Nat) : FrameError
  /-- Embeds `ProxyError::InvalidHandshake("CRC mismatch: …")`. -/
  | crcMismatch (expected actual : Nat) : FrameError
deriving DecidableEq, Repr

/-- Embeds `read_rpc_frame_plaintext` on a byte stream: read a 4-byte length, reject
lengths outside `[12, 2^24]`, read the remainder of the frame, verify the
CRC, and return `(seq_no, payload)` together with the unread rest of the
stream. -/
def read_rpc_frame_plaintext (input : List Nat) :
    Except FrameError ((Int × List Nat) × List Nat) :=
  if input.length < 4 then .error .ioShort else
  let total_len := fromLe4 (input.take 4)
  if total_len < 12 ∨ 16777216 < total_len then .error (.badLength total_len) else
  if input.length < total_len then .error .ioShort else
  let full := input.take total_len
  let crc_offset := total_len - 4
  let expected_crc := fromLe4 (full.drop crc_offset)
  let actual_crc := crc32 (full.take crc_offset)
  if expected_crc ≠ actual_crc then .error (.crcMismatch expected_crc actual_crc) else
  .ok ((i32ofBytes (full.drop 4), (full.take crc_offset).drop 8), input.drop total_len)

/-! ## Addresses and the `RPC_PROXY_REQ` encoder -/

/-- The IP of a socket address, as the encoder cases on it. -/
inductive IpAddress where
  /-- An IPv4 address, by its four octets. -/
  | v4 (o0 o1 o2 o3 : Nat)
  /-- An IPv6 address, by its sixteen octets. -/
  | v6 (octets : List Nat)
deriving DecidableEq, Repr

/-- Embeds `ipv4_to_mapped_v6`: `00×10 ‖ FF FF ‖ v4 octets`. -/
def ipv4_to_mapped_v6 (o0 o1 o2 o3 : Nat) : List Nat :=
  [0, 0, 0, 0, 0, 0, 0, 0, 0, 0, 0xFF, 0xFF, o0, o1, o2, o3]

/-- The 16 address bytes `build_proxy_req_payload` emits for an IP. -/
def ipBytes : IpAddress → List Nat
  | .v4 o0 o1 o2 o3 => ipv4_to_mapped_v6 o0 o1 o2 o3
  | .v6 o => o

/-- A socket address as the encoder consumes it. -/
structure SocketAddress where
  ip : IpAddress
  port : Nat
deriving DecidableEq, Repr

/-- Modelled from the spec: `crate::protocol::constants` is not under `src/`,
so the RPC opcode and TL constants enter the embedding as opaque parameters.
§8 S1 of the spec fixes only `RPC_NONCE = 0x55CF8FAA` and
`RPC_CRYPTO_AES = 0x89E5E051`. -/
structure RpcConsts where
  rpcProxyReq : Nat
  tlProxyTag : Nat
  rpcHandshake : Nat
  rpcHandshakeError : Nat
  rpcProxyAns : Nat
  rpcSimpleAck : Nat
  rpcCloseExt : Nat
  rpcCloseConn : Nat
  rpcPing : Nat
  rpcPong : Nat
deriving DecidableEq, Repr

/-- The TL-string encoding of the ad tag, exactly as inlined in
`build_proxy_req_payload`: short form (one length byte) for `len < 254`,
long form (`0xFE` plus 3-byte LE length) otherwise, each zero-padded to a
4-byte boundary. -/
def tlStringBytes (tag : List Nat) : List Nat :=
  if tag.length < 254 then
    tag.length :: tag ++ List.replicate ((4 - (1 + tag.length) % 4) % 4) 0
  else
    0xFE :: (u32le tag.length).take 3 ++ tag ++ List.replicate ((4 - tag.length % 4) % 4) 0

/-- The TL-string encoding as the spec sentence under test words it: short
form padded with `(3 − (1+len) mod 4) mod 4` zero bytes (claim C3).  Kept
separate so it can be compared against the code's `tlStringBytes`. -/
def tlStringBytesSpec (tag : List Nat) : List Nat :=
  if tag.length < 254 then
    tag.length :: tag ++ List.replicate ((3 - (1 + tag.length) % 4) % 4) 0
  else
    0xFE :: (u32le tag.length).take 3 ++ tag ++ List.replicate ((4 - tag.length % 4) % 4) 0

/-- Embeds `build_proxy_req_payload`.  The Rust code reserves a 4-byte placeholder
for `extra_len` and patches it after appending the extras; since the final
value is the byte length of what follows the placeholder, the embedding
emits that length directly. -/
def build_proxy_req_payload (k : RpcConsts) (conn_id : Nat)
    (client_addr our_addr : SocketAddress) (data : List Nat)
    (proxy_tag : Option (List Nat)) (proto_flags : Nat) : List Nat :=
  let flags := proto_flags
  let head := u32le k.rpcProxyReq ++ u32le flags ++ u64le conn_id
    ++ ipBytes client_addr.ip ++ u32le client_addr.port
    ++ ipBytes our_addr.ip ++ u32le our_addr.port
  let extras :=
    if flags &&& 12 ≠ 0 then
      let body := match proxy_tag with
        | some tag => u32le k.tlProxyTag ++ tlStringBytes tag
        | none => []
      u32le body.length ++ body
    else []
  head ++ extras ++ data

/-! ## The encrypted handshake-response parse loop (`connect_one`, step 5) -/

/-- The ways the handshake-response frame loop in `connect_one` rejects. -/
inductive HsError where
  /-- Embeds `InvalidHandshake("Bad HS response frame len: …")`. -/
  | badLength (l : Nat) : HsError
  /-- Embeds `InvalidHandshake("HS CRC mismatch: …")`. -/
  | crcMismatch (expected actual : Nat) : HsError
  /-- Embeds `InvalidHandshake("ME rejected handshake (error=…)")`:
  the peer answered `RPC_HANDSHAKE_ERROR` with this signed 32-bit code. -/
  | rejected (code : Int) : HsError
  /-- Embeds `InvalidHandshake("Expected HANDSHAKE …, got …")`. -/
  | badType (t : Nat) : HsError
deriving DecidableEq, Repr

/-- The outcome of one pass of the `while dec_buf.len() >= 4` frame loop in
`connect_one`: success (with the plaintext residue carried into the reader),
a fatal error, or "need more data". -/
inductive HsOutcome where
  | ok (dec : List Nat) : HsOutcome
  | err (e : HsError) : HsOutcome
  | needMore (dec : List Nat) : HsOutcome
deriving DecidableEq, Repr

/-- The `connect_one` handshake-response frame loop over the decrypted
buffer, structured on a fuel argument so that it evaluates (each pass drops
at least 4 bytes, so `dec.length` is always enough fuel; fuel 0 can only be
reached with an empty buffer, where the loop waits for more data anyway):
skip bare `total_len == 4` noop words, reject bad lengths, stop when a frame
is incomplete, check the CRC, then accept `RPC_HANDSHAKE` and reject
`RPC_HANDSHAKE_ERROR` (whose body carries a signed 32-bit error code). -/
def hsParseLoopF (k : RpcConsts) : Nat → List Nat → HsOutcome
  | 0, dec => .needMore dec
  | fuel + 1, dec =>
    if dec.length < 4 then .needMore dec else
    let fl := fromLe4 dec
    if fl = 4 then hsParseLoopF k fuel (dec.drop 4) else
    if fl < 12 ∨ 16777216 < fl then .err (.badLength fl) else
    if dec.length < fl then .needMore dec else
    let frame := dec.take fl
    let pe := fl - 4
    let ec := fromLe4 (frame.drop pe)
    let ac := crc32 (frame.take pe)
    if ec ≠ ac then .err (.crcMismatch ec ac) else
    let hs_type := fromLe4 (frame.drop 8)
    if hs_type = k.rpcHandshakeError then
      let err_code := if 16 ≤ frame.length then i32ofBytes (frame.drop 12) else -1
      .err (.rejected err_code)
    else if hs_type ≠ k.rpcHandshake then .err (.badType hs_type)
    else .ok (dec.drop fl)

/-- The `connect_one` frame loop on a decrypted buffer. -/
def hsParseLoop (k : RpcConsts) (dec : List Nat) : HsOutcome :=
  hsParseLoopF k dec.length dec

/-- The tail of `connect_one`: only a successful handshake pushes the new
writer into the pool (`self.writers.write().await.push(rpc_w)`); every error
path returns before the push, leaving the pool untouched. -/
def connectOneFinish {W : Type} (outcome : HsOutcome) (pool : List W) (w : W) :
    Except HsError (List W) :=
  match outcome with
  | .ok _ => .ok (pool ++ [w])
  | .err e => .error e
  | .needMore _ => .error (.badType 0)

/-- One decrypt step of `connect_one`'s streaming handshake reader: decrypt
`⌊len/16⌋·16` bytes of the encrypted residue with the chained IV, keep the
remainder.  `d iv chunk` stands for `AesCbc::new(rk, iv).decrypt_in_place`,
`none` being a crypto failure.  Returns `(encrypted residue, plaintext
residue, read IV)`. -/
def hsDecryptStep (d : List Nat → List Nat → Option (List Nat))
    (raw dec iv : List Nat) : Option (List Nat × List Nat × List Nat) :=
  let blocks := raw.length / 16 * 16
  if blocks = 0 then some (raw, dec, iv)
  else
    match d iv (raw.take blocks) with
    | none => none
    | some plain => some (raw.drop blocks, dec ++ plain, (raw.take blocks).drop (blocks - 16))

/-! ## The steady-state reader loop (`reader_loop`) -/

/-- The observable actions of one pass of `reader_loop`'s frame loop. -/
inductive ReaderEvent where
  /-- Embeds `reg.route(cid, MeResponse::Data(data))` for an `RPC_PROXY_ANS`. -/
  | ansData (cid : Nat) (data : List Nat)
  /-- Embeds `reg.route(cid, MeResponse::Ack(confirm))` for an `RPC_SIMPLE_ACK`. -/
  | ackConfirm (cid : Nat) (confirm : Nat)
  /-- Embeds `route(cid, Close)` then `unregister(cid)` for `RPC_CLOSE_EXT`/`_CONN`. -/
  | closeConn (cid : Nat)
  /-- A `RPC_PONG ‖ ping_id` frame sent back through this peer's writer. -/
  | pongSent (ping_id : Int)
  /-- The PONG write failed; the frame loop breaks (the outer loop goes on). -/
  | pongSendFailed (ping_id : Int)
  /-- Embeds `warn!("Invalid RPC frame len")`: the plaintext buffer is cleared and
  the frame loop breaks — the reader keeps running. -/
  | invalidLenWarn (l : Nat)
  /-- Embeds `warn!("CRC mismatch in data frame")`: the frame is dropped and the
  loop continues. -/
  | crcMismatchWarn
  /-- An unknown RPC type, logged and ignored. -/
  | unknownRpc (t : Nat)
deriving DecidableEq, Repr

/-- Result of `reader_loop`'s inner `while dec.len() >= 12` frame loop: the
emitted events and the remaining plaintext residue. -/
structure ParsedFrames where
  events : List ReaderEvent
  dec : List Nat
deriving DecidableEq, Repr

/-- Prepend an event to a `ParsedFrames` result. -/
def ParsedFrames.consEvent (e : ReaderEvent) (p : ParsedFrames) : ParsedFrames :=
  ⟨e :: p.events, p.dec⟩

inductive FrameStep where
  /-- The frame loop stops, returning this result (buffer too short,
  incomplete frame, bad length, or a failed PONG send). -/
  | stop (out : ParsedFrames) : FrameStep
  /-- A bare `total_len == 4` noop word was skipped. -/
  | skip (dec : List Nat) : FrameStep
  /-- One complete frame was consumed, emitting at most one event. -/
  | emit (e : Option ReaderEvent) (dec : List Nat) : FrameStep
deriving DecidableEq, Repr

/-- The outcome of dispatching one CRC-checked frame in `reader_loop`. -/
inductive DispatchOut where
  /-- Continue the frame loop, having emitted at most one event. -/
  | emitEv (e : Option ReaderEvent) : DispatchOut
  /-- The PONG write for an `RPC_PING` failed: break out of the frame loop. -/
  | pongFail (ping_id : Int) : DispatchOut
deriving DecidableEq, Repr

/-- The dispatch part of `reader_loop`'s frame-loop body, on one extracted
frame (`pe = fl - 4`): on a CRC mismatch warn, drop the frame and continue;
otherwise dispatch on the payload's leading opcode (ANS / ACK / CLOSE_EXT /
CLOSE_CONN / PING / unknown).  `pongOk` stands for whether
`writer.lock().await.send(&pong)` succeeds. -/
def readerDispatchFrame (k : RpcConsts) (pongOk : Bool)
    (frame : List Nat) (pe : Nat) : DispatchOut :=
  let ec := fromLe4 (frame.drop pe)
  if crc32 (frame.take pe) ≠ ec then .emitEv (some .crcMismatchWarn) else
  let payload := (frame.take pe).drop 8
  if payload.length < 4 then .emitEv none else
  let pt := fromLe4 payload
  let body := payload.drop 4
  if pt = k.rpcProxyAns ∧ 12 ≤ body.length then
    .emitEv (some (.ansData (fromLe8 (body.drop 4)) (body.drop 12)))
  else if pt = k.rpcSimpleAck ∧ 12 ≤ body.length then
    .emitEv (some (.ackConfirm (fromLe8 body) (fromLe4 (body.drop 8))))
  else if pt = k.rpcCloseExt ∧ 8 ≤ body.length then
    .emitEv (some (.closeConn (fromLe8 body)))
  else if pt = k.rpcCloseConn ∧ 8 ≤ body.length then
    .emitEv (some (.closeConn (fromLe8 body)))
  else if pt = k.rpcPing ∧ 8 ≤ body.length then
    (if pongOk then .emitEv (some (.pongSent (i64ofBytes body)))
     else .pongFail (i64ofBytes body))
  else .emitEv (some (.unknownRpc pt))

/-- One pass of `reader_loop`'s `while dec.len() >= 12` frame loop: stop on
a short buffer, skip a bare `total_len == 4`, warn + clear + break on an
out-of-range length, stop on an incomplete frame, else hand the extracted
frame to `readerDispatchFrame`; the rest of the buffer (`dec.drop fl`) is
what the loop continues with, or what the plaintext residue keeps on a
failed PONG send. -/
def readerFrameStep (k : RpcConsts) (pongOk : Bool) (dec : List Nat) : FrameStep :=
  if dec.length < 12 then .stop ⟨[], dec⟩ else
  let fl := fromLe4 dec
  if fl = 4 then .skip (dec.drop 4) else
  if fl < 12 ∨ 16777216 < fl then .stop ⟨[.invalidLenWarn fl], []⟩ else
  if dec.length < fl then .stop ⟨[], dec⟩ else
  match readerDispatchFrame k pongOk (dec.take fl) (fl - 4) with
  | .emitEv e => .emit e (dec.drop fl)
  | .pongFail pid => .stop ⟨[.pongSendFailed pid], dec.drop fl⟩

/-- The frame loop as iteration of `readerFrameStep` (fuel: every pass
consumes at least 4 bytes, so `dec.length` fuel always suffices; fuel 0 is
only reached with an empty buffer, which stops at once anyway). -/
def readerParseFramesF (k : RpcConsts) (pongOk : Bool) : Nat → List Nat → ParsedFrames
  | 0, dec => ⟨[], dec⟩
  | fuel + 1, dec =>
    match readerFrameStep k pongOk dec with
    | .stop out => out
    | .skip dec' => readerParseFramesF k pongOk fuel dec'
    | .emit none dec' => readerParseFramesF k pongOk fuel dec'
    | .emit (some e) dec' => .consEvent e (readerParseFramesF k pongOk fuel dec')

/-- Embeds `reader_loop`'s frame loop on a plaintext buffer (fuel as in
`hsParseLoopF`: every pass consumes at least 4 bytes, so `dec.length` fuel
always suffices). -/
def readerParseFrames (k : RpcConsts) (pongOk : Bool) (dec : List Nat) : ParsedFrames :=
  readerParseFramesF k pongOk dec.length dec

/-- The per-peer read state of `reader_loop`: encrypted residue, plaintext
residue, and the chained read IV. -/
structure ReadState where
  raw : List Nat
  dec : List Nat
  iv : List Nat
deriving DecidableEq, Repr

/-- The decrypt step at the top of each `reader_loop` iteration, identical in
shape to `hsDecryptStep`: decrypt the complete 16-byte blocks of the
encrypted residue, chain the IV to the last ciphertext block, keep the
unaligned remainder. -/
def readerDecryptStep (d : List Nat → List Nat → Option (List Nat))
    (st : ReadState) : Option ReadState :=
  let blocks := st.raw.length / 16 * 16
  if blocks = 0 then some st
  else
    match d st.iv (st.raw.take blocks) with
    | none => none
    | some plain =>
      some ⟨st.raw.drop blocks, st.dec ++ plain, (st.raw.take blocks).drop (blocks - 16)⟩

/-- One full `reader_loop` iteration on a freshly read chunk: append it to
the encrypted residue, decrypt whole blocks, then run the frame loop.
`none` models the `ProxyError::Crypto` early return. -/
def readerIter (k : RpcConsts) (pongOk : Bool)
    (d : List Nat → List Nat → Option (List Nat))
    (st : ReadState) (chunk : List Nat) : Option (ReadState × List ReaderEvent) :=
  match readerDecryptStep d ⟨st.raw ++ chunk, st.dec, st.iv⟩ with
  | none => none
  | some st' =>
    let p := readerParseFrames k pongOk st'.dec
    some (⟨st'.raw, p.dec, st'.iv⟩, p.events)

/-- Embeds `reader_loop` driven by a list of socket reads; the end of the list is
EOF (`rd.read` returning 0), on which the loop returns `Ok(())`.  A decrypt
failure surfaces as `ProxyError::Crypto` and ends the loop. -/
def readerLoop (k : RpcConsts) (pongOk : Bool)
    (d : List Nat → List Nat → Option (List Nat))
    (st : ReadState) : List (List Nat) → Except Unit (ReadState × List ReaderEvent)
  | [] => .ok (st, [])
  | chunk :: chunks =>
    match readerIter k pongOk d st chunk with
    | none => .error ()
    | some (st', evs) =>
      match readerLoop k pongOk d st' chunks with
      | .error e => .error e
      | .ok (stf, evs') => .ok (stf, evs ++ evs')

/-- The eviction that runs when a reader task ends
(`ws.retain(|w| !Arc::ptr_eq(w, &w_pong))`). -/
def evictWriter {W : Type} [DecidableEq W] (ws : List W) (w : W) : List W :=
  ws.filter (fun o => o ≠ w)

/-! ## Connection registry (`ConnRegistry`) -/

/-- Embeds `ConnRegistry`: the `next_id` atomic (a `u64`, so increments wrap modulo
`2^64`) and the key set of the `HashMap<u64, Sender>`.  Channel senders are
abstracted: `regRoute` takes the delivery outcome for live ids as a
parameter. -/
structure RegState where
  nextId : Nat
  keys : List Nat
deriving DecidableEq, Repr

/-- Embeds `ConnRegistry::new()`: `next_id` starts at 1, the map is empty. -/
def regNew : RegState := ⟨1, []⟩

/-- Embeds `HashMap::insert` on the key set: one binding per key. -/
def mapInsert (m : List Nat) (id : Nat) : List Nat :=
  id :: m.filter (fun x => x ≠ id)

/-- Embeds `ConnRegistry::register`: `fetch_add(1)` returns the old counter value
(wrapping at `2^64`) and inserts a fresh channel under it. -/
def regRegister (st : RegState) : Nat × RegState :=
  (st.nextId, ⟨(st.nextId + 1) % 18446744073709551616, mapInsert st.keys st.nextId⟩)

/-- Embeds `ConnRegistry::unregister`: remove the binding; idempotent. -/
def regUnregister (st : RegState) (id : Nat) : RegState :=
  ⟨st.nextId, st.keys.filter (fun x => x ≠ id)⟩

/-- Embeds `ConnRegistry::route`: look the id up under a read lock; absent ids
return `false` with no other effect; for a present id the result is
`tx.send(resp).await.is_ok()`, abstracted as `recvOk id`.  The map is never
modified. -/
def regRoute (recvOk : Nat → Bool) (st : RegState) (id : Nat) : Bool × RegState :=
  (if st.keys.contains id then recvOk id else false, st)

/-- The registry after `n` consecutive `register` calls from `regNew`. -/
def regAfter : Nat → RegState
  | 0 => regNew
  | n + 1 => (regRegister (regAfter n)).2

/-! ## Pool dispatch (`MePool::send_proxy_req`) -/

/-- The observable outcome of `MePool::send_proxy_req`'s retry loop. -/
inductive SendOutcome (W : Type) where
  /-- Embeds `ProxyError::Proxy("All ME connections dead")`. -/
  | poolEmptyErr : SendOutcome W
  /-- A writer accepted the bytes; the final pool and round-robin counter. -/
  | sent (w : W) (ws : List W) (rr : Nat) : SendOutcome W
deriving DecidableEq, Repr

/-- Embeds `send_proxy_req`'s retry loop: pick `writers[rr % len]`, bump `rr`; on a
send failure evict that writer (`retain(!ptr_eq)`) and retry, erroring when
the pool empties.  `fails w` says whether writer `w`'s `send` fails. -/
def sendLoopF {W : Type} [DecidableEq W] (fails : W → Bool) :
    Nat → List W → Nat → SendOutcome W
  | 0, _, _ => .poolEmptyErr
  | fuel + 1, ws, rr =>
    if hne : ws.length = 0 then .poolEmptyErr
    else
      let idx := rr % ws.length
      let w := ws.get ⟨idx, Nat.mod_lt rr (Nat.pos_of_ne_zero hne)⟩
      if fails w then
        let ws' := evictWriter ws w
        if ws'.length = 0 then .poolEmptyErr
        else sendLoopF fails fuel ws' (rr + 1)
      else .sent w ws (rr + 1)

/-- Embeds `send_proxy_req`'s retry loop on a pool (fuel: every retry evicts one
writer, so `ws.length` iterations always suffice; fuel 0 is only reached
with an empty pool, which is the pool-empty error anyway). -/
def sendLoop {W : Type} [DecidableEq W] (fails : W → Bool)
    (ws : List W) (rr : Nat) : SendOutcome W :=
  sendLoopF fails ws.length ws rr

/-- Embeds `MePool::connection_count`: the length of the writer list. -/
def connection_count {W : Type} (ws : List W) : Nat := ws.length

/-! ## `RpcWriter::send` -/

/-- The mutable state of an `RpcWriter`: write IV and the signed 32-bit
sequence counter. -/
structure WriterState where
  iv : List Nat
  seqNo : Int
deriving DecidableEq, Repr

/-- Embeds `i32` wrap-around addition of 1 (Rust release-mode `+= 1`). -/
def wrapI32 (x : Int) : Int := (x + 2147483648) % 4294967296 - 2147483648

/-- The `04 00 00 00` repeating pad: byte `i` of the padding is
`pad_pattern[i % 4]`. -/
def padPattern (n : Nat) : List Nat :=
  (List.range n).map (fun i => [4, 0, 0, 0].getD (i % 4) 0)

/-- Embeds `RpcWriter::send`'s failure modes. -/
inductive WriteError where
  /-- Embeds `ProxyError::Crypto` from `encrypt_in_place`. -/
  | cryptoErr : WriteError
  /-- Embeds `ProxyError::Io` from `write_all`. -/
  | ioErr : WriteError
deriving DecidableEq, Repr

/-- Embeds `RpcWriter::send`: frame-wrap with the current sequence number, bump the
counter, pad with the `04 00 00 00` pattern, CBC-encrypt (abstracted as `e`,
`none` being a crypto failure), chain the IV to the last ciphertext block,
then write (`ioOk` says whether `write_all` succeeds).  On success the bytes
put on the wire are returned. -/
def rpcWriterSend (e : List Nat → List Nat → Option (List Nat)) (ioOk : Bool)
    (st : WriterState) (payload : List Nat) : WriterState × Except WriteError (List Nat) :=
  let frame := build_rpc_frame st.seqNo payload
  let seq' := wrapI32 (st.seqNo + 1)
  let pad := (16 - frame.length % 16) % 16
  let buf := frame ++ padPattern pad
  match e st.iv buf with
  | none => (⟨st.iv, seq'⟩, .error .cryptoErr)
  | some cbuf =>
    let iv' := if 16 ≤ cbuf.length then cbuf.drop (cbuf.length - 16) else st.iv
    if ioOk then (⟨iv', seq'⟩, .ok cbuf) else (⟨iv', seq'⟩, .error .ioErr)

/-! ## Hot reload (`src/config/hot_reload.rs`) -/

/-- Embeds `AccessConfig`: users (name ↦ secret) and the per-user quota maps,
modelled as association lists. -/
structure AccessCfg where
  users : List (String × String)
  user_max_tcp_conns : List (String × Nat)
  user_expirations : List (String × Nat)
  user_data_quota : List (String × Nat)
  user_max_unique_ips : List (String × Nat)
deriving DecidableEq, Repr

/-- The `general` section fields the watcher looks at. -/
structure GeneralCfg where
  log_level : Nat
  ad_tag : Option String
  middle_proxy_pool_size : Nat
  me_keepalive_enabled : Bool
  me_keepalive_interval_secs : Nat
  me_keepalive_jitter_secs : Nat
  me_keepalive_payload_random : Bool
  use_middle_proxy : Bool
deriving DecidableEq, Repr

/-- The `server` section: the listener port. -/
structure ServerCfg where
  port : Nat
deriving DecidableEq, Repr

/-- The `censorship` section: the fronting TLS domain. -/
structure CensorshipCfg where
  tls_domain : String
deriving DecidableEq, Repr

/-- The `network` section: outbound bindings. -/
structure NetworkCfg where
  ipv4 : Option String
  ipv6 : Option String
deriving DecidableEq, Repr

/-- Embeds `ProxyConfig`, restricted to the fields `hot_reload.rs` reads. -/
structure ProxyConfig where
  server : ServerCfg
  censorship : CensorshipCfg
  network : NetworkCfg
  general : GeneralCfg
  access : AccessCfg
deriving DecidableEq, Repr

/-- Embeds `HotFields`: the fields that are safe to swap without restart. -/
structure HotFields where
  log_level : Nat
  ad_tag : Option String
  middle_proxy_pool_size : Nat
  me_keepalive_enabled : Bool
  me_keepalive_interval_secs : Nat
  me_keepalive_jitter_secs : Nat
  me_keepalive_payload_random : Bool
  access : AccessCfg
deriving DecidableEq, Repr

/-- Embeds `HotFields::from_config`. -/
def HotFields.fromConfig (cfg : ProxyConfig) : HotFields :=
  ⟨cfg.general.log_level, cfg.general.ad_tag, cfg.general.middle_proxy_pool_size,
   cfg.general.me_keepalive_enabled, cfg.general.me_keepalive_interval_secs,
   cfg.general.me_keepalive_jitter_secs, cfg.general.me_keepalive_payload_random,
   cfg.access⟩

/-- The four "restart required" warnings of `warn_non_hot_changes`. -/
inductive ReloadWarning where
  | portChanged
  | tlsDomainChanged
  | networkChanged
  | useMiddleProxyChanged
deriving DecidableEq, Repr

/-- Embeds `warn_non_hot_changes`: one warning per changed non-hot field. -/
def warn_non_hot_changes (old new : ProxyConfig) : List ReloadWarning :=
  (if old.server.port ≠ new.server.port then [.portChanged] else [])
  ++ (if old.censorship.tls_domain ≠ new.censorship.tls_domain then [.tlsDomainChanged] else [])
  ++ (if old.network.ipv4 ≠ new.network.ipv4 ∨ old.network.ipv6 ≠ new.network.ipv6 then
        [.networkChanged] else [])
  ++ (if old.general.use_middle_proxy ≠ new.general.use_middle_proxy then
        [.useMiddleProxyChanged] else [])

/-- One accepted reload in `spawn_config_watcher` (after `load` and
`validate` succeed): if the hot fields are unchanged the tick is skipped
silently (no snapshot, no warnings); otherwise the non-hot warnings are
emitted and **the entire new config** is broadcast as the next snapshot
(`config_tx.send(Arc::new(new_cfg))`). -/
def reloadStep (old new : ProxyConfig) : Option (ProxyConfig × List ReloadWarning) :=
  if HotFields.fromConfig old = HotFields.fromConfig new then none
  else some (new, warn_non_hot_changes old new)

/-- The S6-style scenario, old side: port 80, one user `alice`. -/
def cfgOld : ProxyConfig :=
  ⟨⟨80⟩, ⟨"a.com"⟩, ⟨none, none⟩, ⟨0, none, 2, true, 30, 5, false, true⟩,
   ⟨[("alice", "s1")], [], [], [], []⟩⟩

/-- The S6-style scenario, new side: `server.port` changed to 90 (non-hot)
and user `bob` added (hot). -/
def cfgNew : ProxyConfig :=
  ⟨⟨90⟩, ⟨"a.com"⟩, ⟨none, none⟩, ⟨0, none, 2, true, 30, 5, false, true⟩,
   ⟨[("alice", "s1"), ("bob", "s2")], [], [], [], []⟩⟩

/-! ## Byte-codec lemmas -/

theorem u32le_length (n : Nat) : (u32le n).length = 4 := rfl

theorem i32le_length (s : Int) : (i32le s).length = 4 := rfl

theorem getD_lt_of_bytes (l : List Nat) (h : ∀ b ∈ l, b < 256) (i : Nat) :
    l.getD i 0 < 256 := by
  by_cases hi : i < l.length
  · rw [List.getD_eq_getElem l 0 hi]
    exact h _ (List.getElem_mem hi)
  · rw [List.getD_eq_default l 0 (by omega)]
    omega

theorem fromLe4_u32le (n : Nat) (h : n < 4294967296) : fromLe4 (u32le n) = n := by
  simp only [fromLe4, u32le, List.getD_cons_zero, List.getD_cons_succ]
  omega

theorem fromLe4_append (l r : List Nat) (h : 4 ≤ l.length) :
    fromLe4 (l ++ r) = fromLe4 l := by
  unfold fromLe4
  rw [List.getD_append _ _ _ _ (by omega), List.getD_append _ _ _ _ (by omega),
    List.getD_append _ _ _ _ (by omega), List.getD_append _ _ _ _ (by omega)]

theorem fromLe4_lt (l : List Nat) (h : ∀ b ∈ l, b < 256) : fromLe4 l < 4294967296 := by
  have h0 := getD_lt_of_bytes l h 0
  have h1 := getD_lt_of_bytes l h 1
  have h2 := getD_lt_of_bytes l h 2
  have h3 := getD_lt_of_bytes l h 3
  unfold fromLe4
  omega

theorem i32ofBytes_append (l r : List Nat) (h : 4 ≤ l.length) :
    i32ofBytes (l ++ r) = i32ofBytes l := by
  unfold i32ofBytes
  rw [fromLe4_append l r h]

theorem i32ofBytes_i32le (s : Int) (h1 : -2147483648 ≤ s) (h2 : s < 2147483648) :
    i32ofBytes (i32le s) = s := by
  have hlt : (s % 4294967296).toNat < 4294967296 := by omega
  simp only [i32ofBytes, i32le, fromLe4_u32le _ hlt]
  split <;> omega

theorem u32le_bytes_lt (n : Nat) : ∀ b ∈ u32le n, b < 256 := by
  simp only [u32le, List.mem_cons, List.not_mem_nil, or_false]
  rintro b (rfl | rfl | rfl | rfl) <;> omega

theorem i32le_bytes_lt (s : Int) : ∀ b ∈ i32le s, b < 256 := u32le_bytes_lt _

/-! ## CRC-32 lemmas: any single-byte change to the input changes the CRC -/

theorem crcRound_lt {s : Nat} (h : s < 4294967296) : crcRound s < 4294967296 := by
  unfold crcRound
  split
  · exact Nat.xor_lt_two_pow (n := 32) (by omega) (by norm_num)
  · omega

theorem crcRound_inj {s t : Nat} (hs : s < 4294967296) (ht : t < 4294967296)
    (h : crcRound s = crcRound t) : s = t := by
  have poly31 : (0xEDB88320 : Nat).testBit 31 = true := by decide
  unfold crcRound at h
  by_cases ps : s % 2 = 1 <;> by_cases pt : t % 2 = 1 <;> simp [ps, pt] at h
  · have : s / 2 = t / 2 := by
      have h2 := congrArg (· ^^^ 0xEDB88320) h
      simpa [Nat.xor_assoc] using h2
    omega
  · exfalso
    have hbit : (s / 2 ^^^ 0xEDB88320).testBit 31 = true := by
      rw [Nat.testBit_xor]
      have : (s / 2).testBit 31 = false :=
        Nat.testBit_eq_false_of_lt (by omega)
      simp [this, poly31]
    rw [h] at hbit
    have : (t / 2).testBit 31 = false := Nat.testBit_eq_false_of_lt (by omega)
    simp [this] at hbit
  · exfalso
    have hbit : (t / 2 ^^^ 0xEDB88320).testBit 31 = true := by
      rw [Nat.testBit_xor]
      have : (t / 2).testBit 31 = false :=
        Nat.testBit_eq_false_of_lt (by omega)
      simp [this, poly31]
    rw [← h] at hbit
    have : (s / 2).testBit 31 = false := Nat.testBit_eq_false_of_lt (by omega)
    simp [this] at hbit
  · omega

theorem crcIter_lt (k : Nat) {s : Nat} (h : s < 4294967296) :
    crcRound^[k] s < 4294967296 := by
  induction k with
  | zero => simpa using h
  | succ n ih =>
    rw [Function.iterate_succ_apply']
    exact crcRound_lt ih

theorem crcIter_inj (k : Nat) {s t : Nat} (hs : s < 4294967296) (ht : t < 4294967296)
    (h : crcRound^[k] s = crcRound^[k] t) : s = t := by
  induction k with
  | zero => simpa using h
  | succ n ih =>
    rw [Function.iterate_succ_apply', Function.iterate_succ_apply'] at h
    exact ih (crcRound_inj (crcIter_lt n hs) (crcIter_lt n ht) h)

theorem crcByteStep_lt {s b : Nat} (hs : s < 4294967296) (hb : b < 4294967296) :
    crcByteStep s b < 4294967296 :=
  crcIter_lt 8 (Nat.xor_lt_two_pow (n := 32) hs hb)

theorem xor_left_inj {a b c : Nat} (h : c ^^^ a = c ^^^ b) : a = b := by
  have h2 := congrArg (c ^^^ ·) h
  simpa [← Nat.xor_assoc] using h2

theorem xor_right_inj {a b c : Nat} (h : a ^^^ c = b ^^^ c) : a = b := by
  have h2 := congrArg (· ^^^ c) h
  simpa [Nat.xor_assoc] using h2

theorem crcByteStep_state_inj {s t b : Nat} (hs : s < 4294967296) (ht : t < 4294967296)
    (hb : b < 4294967296) (hne : s ≠ t) : crcByteStep s b ≠ crcByteStep t b := by
  intro h
  exact hne (xor_right_inj (crcIter_inj 8
    (Nat.xor_lt_two_pow (n := 32) hs hb) (Nat.xor_lt_two_pow (n := 32) ht hb) h))

theorem crcByteStep_byte_inj {s b b' : Nat} (hs : s < 4294967296) (hb : b < 4294967296)
    (hb' : b' < 4294967296) (hne : b ≠ b') : crcByteStep s b ≠ crcByteStep s b' := by
  intro h
  exact hne (xor_left_inj (crcIter_inj 8
    (Nat.xor_lt_two_pow (n := 32) hs hb) (Nat.xor_lt_two_pow (n := 32) hs hb') h))

theorem crc32run_nil (s : Nat) : crc32run s [] = s := rfl

theorem crc32run_cons (s a : Nat) (t : List Nat) :
    crc32run s (a :: t) = crc32run (crcByteStep s a) t := rfl

theorem crc32run_append (s : Nat) (l r : List Nat) :
    crc32run s (l ++ r) = crc32run (crc32run s l) r := by
  unfold crc32run
  exact List.foldl_append crcByteStep s l r

theorem crc32run_lt (l : List Nat) : ∀ s : Nat, s < 4294967296 →
    (∀ b ∈ l, b < 4294967296) → crc32run s l < 4294967296 := by
  induction l with
  | nil => intro s hs _; simpa [crc32run_nil] using hs
  | cons a t ih =>
    intro s hs hl
    rw [crc32run_cons]
    exact ih _ (crcByteStep_lt hs (hl a (List.mem_cons_self a t)))
      (fun b hb => hl b (List.mem_cons.mpr (Or.inr hb)))

theorem crc32run_inj (l : List Nat) : ∀ s t : Nat, s < 4294967296 →
    t < 4294967296 → (∀ b ∈ l, b < 4294967296) → s ≠ t →
    crc32run s l ≠ crc32run t l := by
  induction l with
  | nil => intro s t _ _ _ hne; simpa [crc32run_nil] using hne
  | cons a tl ih =>
    intro s t hs ht hl hne
    rw [crc32run_cons, crc32run_cons]
    exact ih _ _ (crcByteStep_lt hs (hl a (List.mem_cons_self a tl)))
      (crcByteStep_lt ht (hl a (List.mem_cons_self a tl)))
      (fun b hb => hl b (List.mem_cons.mpr (Or.inr hb)))
      (crcByteStep_state_inj hs ht (hl a (List.mem_cons_self a tl)) hne)

theorem crc32_lt (l : List Nat) (hl : ∀ b ∈ l, b < 4294967296) :
    crc32 l < 4294967296 :=
  Nat.xor_lt_two_pow (n := 32) (crc32run_lt l _ (by norm_num) hl) (by norm_num)

/-- Changing one byte of the input changes the CRC-32. -/
theorem crc32_tamper (pre suf : List Nat) (b b' : Nat)
    (hpre : ∀ x ∈ pre, x < 4294967296) (hsuf : ∀ x ∈ suf, x < 4294967296)
    (hb : b < 4294967296) (hb' : b' < 4294967296) (hne : b ≠ b') :
    crc32 (pre ++ b :: suf) ≠ crc32 (pre ++ b' :: suf) := by
  unfold crc32
  intro h
  have hrun : crc32run 0xFFFFFFFF (pre ++ b :: suf)
      = crc32run 0xFFFFFFFF (pre ++ b' :: suf) := xor_right_inj h
  rw [crc32run_append, crc32run_append, crc32run_cons, crc32run_cons] at hrun
  have hS : crc32run 0xFFFFFFFF pre < 4294967296 :=
    crc32run_lt pre _ (by norm_num) hpre
  exact crc32run_inj suf _ _
    (crcByteStep_lt hS hb) (crcByteStep_lt hS hb') hsuf
    (crcByteStep_byte_inj hS hb hb' hne) hrun

/-! ## Frame codec lemmas -/

theorem build_rpc_frame_def (seq : Int) (p : List Nat) :
    build_rpc_frame seq p
      = (u32le (4 + 4 + p.length + 4) ++ i32le seq ++ p)
        ++ u32le (crc32 (u32le (4 + 4 + p.length + 4) ++ i32le seq ++ p)) := rfl

theorem build_rpc_frame_length (seq : Int) (p : List Nat) :
    (build_rpc_frame seq p).length = 4 + 4 + p.length + 4 := by
  rw [build_rpc_frame_def]
  simp [u32le, i32le]
  omega

theorem build_rpc_frame_bytes_lt (seq : Int) (p : List Nat) (hp : ∀ b ∈ p, b < 256) :
    ∀ b ∈ build_rpc_frame seq p, b < 256 := by
  rw [build_rpc_frame_def]
  intro b hb
  simp only [List.mem_append] at hb
  rcases hb with ((hb | hb) | hb) | hb
  · exact u32le_bytes_lt _ b hb
  · exact i32le_bytes_lt _ b hb
  · exact hp b hb
  · exact u32le_bytes_lt _ b hb

/-- C1, round-trip half: parsing a built frame from the head of a stream
yields exactly `(seq, payload)` and consumes exactly the frame. -/
theorem read_rpc_frame_plaintext_build (seq : Int) (payload rest : List Nat)
    (hw : ∀ b ∈ payload, b < 256)
    (hlen : 4 + 4 + payload.length + 4 ≤ 16777216)
    (hs1 : -2147483648 ≤ seq) (hs2 : seq < 2147483648) :
    read_rpc_frame_plaintext (build_rpc_frame seq payload ++ rest)
      = .ok ((seq, payload), rest) := by
  obtain ⟨A, hA⟩ : ∃ A, u32le (4 + 4 + payload.length + 4) ++ i32le seq ++ payload = A :=
    ⟨_, rfl⟩
  have hAbytes : ∀ b ∈ A, b < 256 := by
    rw [← hA]
    intro b hb
    simp only [List.mem_append] at hb
    rcases hb with (hb | hb) | hb
    · exact u32le_bytes_lt _ b hb
    · exact i32le_bytes_lt _ b hb
    · exact hw b hb
  have hAlen : A.length = 4 + 4 + payload.length := by
    rw [← hA]; simp [u32le, i32le]; omega
  have hCrcLt : crc32 A < 4294967296 :=
    crc32_lt A (fun b hb => lt_trans (hAbytes b hb) (by norm_num))
  have hframe : build_rpc_frame seq payload ++ rest
      = A ++ (u32le (crc32 A) ++ rest) := by
    rw [build_rpc_frame_def, hA, List.append_assoc]
  rw [hframe]
  have hInLen : (A ++ (u32le (crc32 A) ++ rest)).length
      = 4 + 4 + payload.length + 4 + rest.length := by
    simp [u32le, hAlen]
    omega
  have h4 : ¬ ((A ++ (u32le (crc32 A) ++ rest)).length < 4) := by
    rw [hInLen]; omega
  have htake4 : (A ++ (u32le (crc32 A) ++ rest)).take 4
      = u32le (4 + 4 + payload.length + 4) := by
    rw [← hA, List.append_assoc, List.append_assoc]
    exact List.take_left' (u32le_length _)
  have hTL : fromLe4 ((A ++ (u32le (crc32 A) ++ rest)).take 4)
      = 4 + 4 + payload.length + 4 := by
    rw [htake4, fromLe4_u32le _ (by omega)]
  have hrange : ¬ (4 + 4 + payload.length + 4 < 12
      ∨ 16777216 < 4 + 4 + payload.length + 4) := by omega
  have hlen2 : ¬ ((A ++ (u32le (crc32 A) ++ rest)).length < 4 + 4 + payload.length + 4) := by
    rw [hInLen]; omega
  have hfull : (A ++ (u32le (crc32 A) ++ rest)).take (4 + 4 + payload.length + 4)
      = A ++ u32le (crc32 A) := by
    rw [← List.append_assoc]
    refine List.take_left' ?_
    simp [u32le, hAlen]
  have hdropCrc : (A ++ u32le (crc32 A)).drop (4 + 4 + payload.length + 4 - 4)
      = u32le (crc32 A) := List.drop_left' (by omega)
  have htakeA : (A ++ u32le (crc32 A)).take (4 + 4 + payload.length + 4 - 4)
      = A := List.take_left' (by omega)
  have hexp : fromLe4 (u32le (crc32 A)) = crc32 A := fromLe4_u32le _ hCrcLt
  have hseq : i32ofBytes ((A ++ u32le (crc32 A)).drop 4) = seq := by
    rw [← hA, List.append_assoc, List.append_assoc,
      List.drop_left' (u32le_length _), i32ofBytes_append _ _ (by rw [i32le_length]),
      i32ofBytes_i32le seq hs1 hs2]
  have hpay : A.drop 8 = payload := by
    rw [← hA]
    exact List.drop_left' (by simp [u32le, i32le])
  have hrest : (A ++ (u32le (crc32 A) ++ rest)).drop (4 + 4 + payload.length + 4)
      = rest := by
    rw [← List.append_assoc]
    refine List.drop_left' ?_
    simp [u32le, hAlen]
  simp only [read_rpc_frame_plaintext, hTL, h4, hrange, hlen2, hfull, hdropCrc,
    htakeA, hexp, hseq, hpay, hrest, if_false, ite_false, ne_eq, not_true_eq_false,
    not_false_eq_true, if_true, ite_true]

theorem build_take4 (seq : Int) (p : List Nat) :
    (build_rpc_frame seq p).take 4 = u32le (4 + 4 + p.length + 4) := by
  rw [build_rpc_frame_def]
  rw [List.take_append_of_le_length (by simp [u32le, i32le])]
  rw [List.take_append_of_le_length (by simp [u32le, i32le])]
  rw [List.take_append_of_le_length (by simp [u32le])]
  exact List.take_of_length_le (by simp [u32le])

theorem build_take_body (seq : Int) (p : List Nat) :
    (build_rpc_frame seq p).take (4 + 4 + p.length + 4 - 4)
      = u32le (4 + 4 + p.length + 4) ++ i32le seq ++ p := by
  rw [build_rpc_frame_def]
  exact List.take_left' (by simp [u32le, i32le]; omega)

theorem build_drop_body (seq : Int) (p : List Nat) :
    (build_rpc_frame seq p).drop (4 + 4 + p.length + 4 - 4)
      = u32le (crc32 (u32le (4 + 4 + p.length + 4) ++ i32le seq ++ p)) := by
  rw [build_rpc_frame_def]
  exact List.drop_left' (by simp [u32le, i32le]; omega)

theorem fromLe4_set_u32le_ne (c j e : Nat) (hc : c < 4294967296) (hj : j < 4)
    (he : e < 256) (hne : e ≠ (u32le c).getD j 0) :
    fromLe4 ((u32le c).set j e) ≠ c := by
  interval_cases j <;>
    simp only [u32le, List.set_cons_zero, List.set_cons_succ, List.getD_cons_zero,
      List.getD_cons_succ, fromLe4] at hne ⊢ <;>
    omega

/-- C1, tamper half: replacing any byte at offset ≥ 4 (seq, payload or CRC
field) of a built frame by a different value makes parsing fail with a CRC
mismatch. -/
theorem read_rpc_frame_plaintext_tampered (seq : Int) (payload : List Nat)
    (hw : ∀ b ∈ payload, b < 256)
    (hlen : 4 + 4 + payload.length + 4 ≤ 16777216)
    (i e : Nat) (hi4 : 4 ≤ i) (hiL : i < (build_rpc_frame seq payload).length)
    (he : e < 256) (hne : e ≠ (build_rpc_frame seq payload).getD i 0) :
    ∃ ex ac, ex ≠ ac ∧
      read_rpc_frame_plaintext ((build_rpc_frame seq payload).set i e)
        = .error (.crcMismatch ex ac) := by
  obtain ⟨L, hL⟩ : ∃ L, 4 + 4 + payload.length + 4 = L := ⟨_, rfl⟩
  obtain ⟨F, hF⟩ : ∃ F, build_rpc_frame seq payload = F := ⟨_, rfl⟩
  rw [hF] at hiL hne ⊢
  have hFlen : F.length = L := by
    rw [← hF, ← hL]; exact build_rpc_frame_length seq payload
  have hFbytes : ∀ b ∈ F, b < 256 := by
    rw [← hF]; exact build_rpc_frame_bytes_lt seq payload hw
  have hTake4 : F.take 4 = u32le L := by
    rw [← hF, ← hL]; exact build_take4 seq payload
  have hBody : F.take (L - 4) = u32le L ++ i32le seq ++ payload := by
    rw [← hF, ← hL]; exact build_take_body seq payload
  have hCrcB : F.drop (L - 4) = u32le (crc32 (F.take (L - 4))) := by
    rw [hBody, ← hF, ← hL]; exact build_drop_body seq payload
  have hbodyBytes : ∀ b ∈ F.take (L - 4), b < 4294967296 :=
    fun b hb => lt_trans (hFbytes b (List.mem_of_mem_take hb)) (by norm_num)
  have hCrcLt : crc32 (F.take (L - 4)) < 4294967296 := crc32_lt _ hbodyBytes
  obtain ⟨T, hT⟩ : ∃ T, F.set i e = T := ⟨_, rfl⟩
  rw [hT]
  have hiF : i < F.length := hiL
  have hTlen : T.length = L := by rw [← hT, List.length_set, hFlen]
  have hsplit : T = F.take i ++ e :: F.drop (i + 1) := by
    rw [← hT, List.set_eq_take_append_cons_drop, if_pos hiF]
  have htakeIlen : (F.take i).length = i := by
    rw [List.length_take]; omega
  have hT4 : T.take 4 = u32le L := by
    rw [hsplit, List.take_append_of_le_length (by rw [htakeIlen]; omega),
      List.take_take, min_eq_left hi4, hTake4]
  have c1 : ¬ (T.length < 4) := by omega
  have c2 : fromLe4 (T.take 4) = L := by rw [hT4, fromLe4_u32le _ (by omega)]
  have c3 : ¬ (L < 12 ∨ 16777216 < L) := by omega
  have c4 : ¬ (T.length < L) := by omega
  have c5 : T.take L = T := by rw [← hTlen]; exact List.take_length T
  by_cases hcase : i < L - 4
  · -- the tampered byte is under the CRC: the recomputed CRC moves
    obtain ⟨m, hm⟩ : ∃ m, L - 4 - i = m + 1 := ⟨L - 4 - i - 1, by omega⟩
    have hdropT : T.drop (L - 4) = F.drop (L - 4) := by
      rw [hsplit, List.drop_append_eq_append_drop,
        List.drop_eq_nil_of_le (by rw [htakeIlen]; omega), htakeIlen, hm,
        List.nil_append, List.drop_succ_cons, List.drop_drop]
      congr 1
      omega
    have hexpT : fromLe4 (T.drop (L - 4)) = crc32 (F.take (L - 4)) := by
      rw [hdropT, hCrcB, fromLe4_u32le _ hCrcLt]
    have htakeT : T.take (L - 4) = F.take i ++ e :: (F.drop (i + 1)).take m := by
      rw [hsplit, List.take_append_eq_append_take,
        List.take_of_length_le (by rw [htakeIlen]; omega), htakeIlen, hm,
        List.take_succ_cons]
    have htakeF : F.take (L - 4)
        = F.take i ++ F.get ⟨i, hiF⟩ :: (F.drop (i + 1)).take m := by
      conv_lhs => rw [← List.take_append_drop i F]
      rw [List.take_append_eq_append_take,
        List.take_of_length_le (by rw [htakeIlen]; omega), htakeIlen,
        List.drop_eq_getElem_cons hiF, hm, List.take_succ_cons]
      rfl
    have hgetne : F.get ⟨i, hiF⟩ ≠ e := by
      intro hcontra
      exact hne (by rw [List.getD_eq_getElem F 0 hiF, ← hcontra]; rfl)
    have hMismatch : crc32 (F.take (L - 4)) ≠ crc32 (T.take (L - 4)) := by
      rw [htakeT, htakeF]
      exact crc32_tamper (F.take i) ((F.drop (i + 1)).take m) _ e
        (fun b hb => lt_trans (hFbytes b (List.mem_of_mem_take hb)) (by norm_num))
        (fun b hb => lt_trans
          (hFbytes b (List.mem_of_mem_drop (List.mem_of_mem_take hb))) (by norm_num))
        (lt_trans (hFbytes _ (List.get_mem F i hiF)) (by norm_num))
        (lt_trans he (by norm_num)) hgetne
    refine ⟨crc32 (F.take (L - 4)), crc32 (T.take (L - 4)), hMismatch, ?_⟩
    simp only [read_rpc_frame_plaintext, c1, c2, c3, c4, c5, hexpT, hMismatch,
      if_false, ite_false, ne_eq, not_false_eq_true, if_true, ite_true,
      not_true_eq_false]
  · -- the tampered byte is inside the stored CRC field
    obtain ⟨j, hjdef⟩ : ∃ j, i - (L - 4) = j := ⟨_, rfl⟩
    have hj4 : j < 4 := by omega
    have htakeT : T.take (L - 4) = F.take (L - 4) := by
      rw [hsplit, List.take_append_of_le_length (by rw [htakeIlen]; omega),
        List.take_take, min_eq_left (by omega)]
    have hdropLen : (F.drop (L - 4)).length = 4 := by
      rw [List.length_drop]; omega
    have hdropT : T.drop (L - 4) = (F.drop (L - 4)).set j e := by
      rw [hsplit, List.drop_append_eq_append_drop, htakeIlen, List.drop_take,
        Nat.sub_eq_zero_of_le (by omega : L - 4 ≤ i), List.drop_zero, hjdef,
        List.set_eq_take_append_cons_drop, if_pos (by omega)]
      congr 2
      rw [List.drop_drop]
      congr 1
      omega
    have hgetEq : (F.drop (L - 4)).getD j 0 = F.getD i 0 := by
      have hjlt : j < (F.drop (L - 4)).length := by omega
      rw [List.getD_eq_getElem _ 0 hjlt, List.getD_eq_getElem F 0 hiF,
        List.getElem_drop]
      congr 1
      omega
    have hexpNe : fromLe4 (T.drop (L - 4)) ≠ crc32 (F.take (L - 4)) := by
      rw [hdropT, hCrcB]
      exact fromLe4_set_u32le_ne _ j e hCrcLt hj4 he
        (by rw [← hCrcB, hgetEq]; exact hne)
    have hactT : crc32 (T.take (L - 4)) = crc32 (F.take (L - 4)) := by
      rw [htakeT]
    refine ⟨fromLe4 (T.drop (L - 4)), crc32 (T.take (L - 4)),
      by rw [hactT]; exact hexpNe, ?_⟩
    have hcond : fromLe4 (T.drop (L - 4)) ≠ crc32 (T.take (L - 4)) := by
      rw [hactT]; exact hexpNe
    simp only [read_rpc_frame_plaintext, c1, c2, c3, c4, c5, hcond,
      if_false, ite_false, ne_eq, not_false_eq_true, if_true, ite_true,
      not_true_eq_false]

/-! ## Fuel insensitivity of the loop embeddings -/

theorem hsParseLoopF_mono (k : RpcConsts) :
    ∀ f1 f2 dec, dec.length ≤ f1 → dec.length ≤ f2 →
      hsParseLoopF k f1 dec = hsParseLoopF k f2 dec := by
  intro f1
  induction f1 with
  | zero =>
    intro f2 dec h1 _
    have hd : dec = [] := List.eq_nil_of_length_eq_zero (by omega)
    subst hd
    cases f2 <;> rfl
  | succ f ih =>
    intro f2 dec h1 h2
    cases f2 with
    | zero =>
      have hd : dec = [] := List.eq_nil_of_length_eq_zero (by omega)
      subst hd
      rfl
    | succ g =>
      simp only [hsParseLoopF.eq_2]
      split_ifs <;> try rfl
      exact ih g (dec.drop 4) (by simp [List.length_drop]; omega)
        (by simp [List.length_drop]; omega)

theorem readerFrameStep_skip_length (k : RpcConsts) (pongOk : Bool)
    (dec dec' : List Nat) (h : readerFrameStep k pongOk dec = .skip dec') :
    dec'.length + 4 = dec.length ∧ 12 ≤ dec.length := by
  unfold readerFrameStep at h
  split at h
  next h1 => simp at h
  next h1 =>
    dsimp only at h
    split at h
    next h2 =>
      injection h with hd
      subst hd
      simp only [List.length_drop]
      omega
    next h2 =>
      split at h
      next h3 => simp at h
      next h3 =>
        split at h
        next h4 => simp at h
        next h4 =>
          split at h <;> simp at h

theorem readerFrameStep_emit_length (k : RpcConsts) (pongOk : Bool)
    (dec dec' : List Nat) (e : Option ReaderEvent)
    (h : readerFrameStep k pongOk dec = .emit e dec') :
    dec'.length + 12 ≤ dec.length := by
  unfold readerFrameStep at h
  split at h
  next h1 => simp at h
  next h1 =>
    dsimp only at h
    split at h
    next h2 => simp at h
    next h2 =>
      split at h
      next h3 => simp at h
      next h3 =>
        split at h
        next h4 => simp at h
        next h4 =>
          split at h
          next e2 heq =>
            injection h with he hd
            subst hd
            simp only [List.length_drop]
            omega
          next pid heq => simp at h

theorem readerParseFramesF_mono (k : RpcConsts) (pongOk : Bool) :
    ∀ f1 f2 dec, dec.length ≤ f1 → dec.length ≤ f2 →
      readerParseFramesF k pongOk f1 dec = readerParseFramesF k pongOk f2 dec := by
  intro f1
  induction f1 with
  | zero =>
    intro f2 dec h1 _
    have hd : dec = [] := List.eq_nil_of_length_eq_zero (by omega)
    subst hd
    cases f2 <;> rfl
  | succ f ih =>
    intro f2 dec h1 h2
    cases f2 with
    | zero =>
      have hd : dec = [] := List.eq_nil_of_length_eq_zero (by omega)
      subst hd
      rfl
    | succ g =>
      rw [readerParseFramesF.eq_2, readerParseFramesF.eq_2]
      cases hstep : readerFrameStep k pongOk dec with
      | stop out => rfl
      | skip dec' =>
        have hl := readerFrameStep_skip_length k pongOk dec dec' hstep
        exact ih g dec' (by omega) (by omega)
      | emit e dec' =>
        have hl := readerFrameStep_emit_length k pongOk dec dec' e hstep
        cases e with
        | none => exact ih g dec' (by omega) (by omega)
        | some ev =>
          exact congrArg (ParsedFrames.consEvent ev) (ih g dec' (by omega) (by omega))

/-! ## C1: frame codec round-trip and tamper detection -/

/-- Claim C1 (amended). —  For every payload within the claimed bounds and every
i32 `seq`, parsing the built frame returns exactly `(seq, payload)`; and
replacing any single byte at offset ≥ 4 (the seq, payload or CRC bytes — not
the 4-byte length field) by a different value makes parsing fail with a CRC
mismatch error. -/
theorem frame_codec_roundtrip_and_tamper (seq : Int) (payload : List Nat)
    (hw : ∀ b ∈ payload, b < 256)
    (hlo : 12 ≤ 12 + payload.length + 4) (hhi : 12 + payload.length + 4 ≤ 16777216)
    (hs1 : -2147483648 ≤ seq) (hs2 : seq < 2147483648) :
    read_rpc_frame_plaintext (build_rpc_frame seq payload) = .ok ((seq, payload), [])
    ∧ ∀ i e, 4 ≤ i → i < (build_rpc_frame seq payload).length → e < 256 →
        e ≠ (build_rpc_frame seq payload).getD i 0 →
        ∃ ex ac, ex ≠ ac ∧
          read_rpc_frame_plaintext ((build_rpc_frame seq payload).set i e)
            = .error (.crcMismatch ex ac) := by
  constructor
  · have h := read_rpc_frame_plaintext_build seq payload [] hw (by omega) hs1 hs2
    simpa using h
  · intro i e hi4 hiL he hne
    exact read_rpc_frame_plaintext_tampered seq payload hw (by omega) i e hi4 hiL he hne

/-- Claim C1 witness. — -/
theorem frame_codec_roundtrip_and_tamper_witness :
    read_rpc_frame_plaintext (build_rpc_frame 0 [1, 2, 3, 4]) = .ok ((0, [1, 2, 3, 4]), [])
    ∧ ∃ ex ac, ex ≠ ac ∧
        read_rpc_frame_plaintext ((build_rpc_frame 0 [1, 2, 3, 4]).set 8 9)
          = .error (.crcMismatch ex ac) := by
  have h := frame_codec_roundtrip_and_tamper 0 [1, 2, 3, 4]
    (by decide) (by omega) (by decide) (by decide) (by decide)
  exact ⟨h.1, h.2 8 9 (by decide) (by decide) (by decide) (by decide)⟩

/-- Claim C1 counterexample. —  A flip inside the 4-byte length field need not
produce a CRC-mismatch failure: on the frame for `seq = 0`, `payload = []`,
flipping byte 3 from `0x00` to `0x01` fails with a bad-length error instead
(other length-field flips can fail differently, or even reach the CRC check). -/
theorem frame_codec_tamper_counterexample :
    (1 : Nat) ≠ (build_rpc_frame 0 []).getD 3 0
    ∧ read_rpc_frame_plaintext ((build_rpc_frame 0 []).set 3 1)
        = .error (.badLength 16777228)
    ∧ ∀ ex ac, read_rpc_frame_plaintext ((build_rpc_frame 0 []).set 3 1)
        ≠ .error (.crcMismatch ex ac) := by
  refine ⟨by decide, by decide, ?_⟩
  intro ex ac h
  rw [show read_rpc_frame_plaintext ((build_rpc_frame 0 []).set 3 1)
      = .error (.badLength 16777228) from by decide] at h
  simp at h

/-! ## C3: TL-string encoding of the ad tag -/

/-- Claim C3 (amended). —  With an extras-enabling flag set, the encoder emits
`extra_len ‖ TL_PROXY_TAG ‖ tl_string(tag)` between the addresses and the
data; for `len(tag) < 254` the TL string is one length byte, the tag bytes,
then `(4 − (1+len) mod 4) mod 4` zero pad bytes (equivalently
`(3 − len mod 4) mod 4`); for `len(tag) ≥ 254` it is `0xFE`, a 3-byte LE
length, the tag bytes, then `(4 − len mod 4) mod 4` zero pad bytes. -/
theorem proxy_req_tl_string_encoding (k : RpcConsts) (conn_id : Nat)
    (ca oa : SocketAddress) (data tag : List Nat) (flags : Nat)
    (hflags : flags &&& 12 ≠ 0) :
    build_proxy_req_payload k conn_id ca oa data (some tag) flags
      = u32le k.rpcProxyReq ++ u32le flags ++ u64le conn_id
        ++ ipBytes ca.ip ++ u32le ca.port ++ ipBytes oa.ip ++ u32le oa.port
        ++ (u32le (4 + (tlStringBytes tag).length)
            ++ (u32le k.tlProxyTag ++ tlStringBytes tag))
        ++ data
    ∧ (tag.length < 254 →
        tlStringBytes tag
          = tag.length :: tag ++ List.replicate ((4 - (1 + tag.length) % 4) % 4) 0)
    ∧ (254 ≤ tag.length →
        tlStringBytes tag
          = 0xFE :: (u32le tag.length).take 3 ++ tag
              ++ List.replicate ((4 - tag.length % 4) % 4) 0) := by
  refine ⟨?_, ?_, ?_⟩
  · simp only [build_proxy_req_payload, if_pos hflags]
    have hlen : (u32le k.tlProxyTag ++ tlStringBytes tag).length
        = 4 + (tlStringBytes tag).length := by simp [u32le]; omega
    rw [hlen]
  · intro h
    rw [tlStringBytes, if_pos h]
  · intro h
    rw [tlStringBytes, if_neg (by omega)]

/-- Claim C3 witness. — -/
theorem proxy_req_tl_string_encoding_witness :
    tlStringBytes [1, 2, 3]
      = ([1, 2, 3] : List Nat).length :: [1, 2, 3]
          ++ List.replicate ((4 - (1 + ([1, 2, 3] : List Nat).length) % 4) % 4) 0 :=
  (proxy_req_tl_string_encoding ⟨1, 2, 3, 4, 5, 6, 7, 8, 9, 10⟩ 7
    ⟨.v4 1 2 3 4, 80⟩ ⟨.v4 5 6 7 8, 443⟩ [9] [1, 2, 3] 12 (by decide)).2.1 (by decide)

/-- Claim C3 counterexample. —  For the empty tag the encoder emits one length
byte and 3 zero pads (total 4 bytes), while the claim's short-form pad count
`(3 − (1+len) mod 4) mod 4` predicts 2 pads (total 3 bytes); with it the
whole `RPC_PROXY_REQ` payload would be one byte shorter than the encoder's
68 bytes. -/
theorem proxy_req_tl_string_counterexample :
    tlStringBytes [] = [0, 0, 0, 0]
    ∧ tlStringBytesSpec [] = [0, 0, 0]
    ∧ tlStringBytes [] ≠ tlStringBytesSpec []
    ∧ (build_proxy_req_payload ⟨0, 0, 0, 0, 0, 0, 0, 0, 0, 0⟩ 0
        ⟨.v4 0 0 0 0, 0⟩ ⟨.v4 0 0 0 0, 0⟩ [] (some []) 12).length = 68
    ∧ 56 + 4 + 4 + (tlStringBytesSpec []).length = 67 := by decide

/-! ## C4: handling of the bare `total_len == 4` noop word -/

/-- Claim C4 (amended). —  A bare `total_len == 4` word is skipped (parsing
continues with the following bytes) by the encrypted handshake-response
parser and by the steady-state reader loop; the plaintext handshake frame
reader instead rejects it as a bad frame length. -/
theorem noop_padding_handling (k : RpcConsts) (pongOk : Bool) (dec rest : List Nat)
    (h8 : 8 ≤ dec.length) :
    hsParseLoop k ([4, 0, 0, 0] ++ dec) = hsParseLoop k dec
    ∧ readerParseFrames k pongOk ([4, 0, 0, 0] ++ dec) = readerParseFrames k pongOk dec
    ∧ read_rpc_frame_plaintext ([4, 0, 0, 0] ++ rest) = .error (.badLength 4) := by
  have hfl : fromLe4 ([4, 0, 0, 0] ++ dec) = 4 := by
    rw [fromLe4_append _ _ (by simp)]; decide
  have hdrop : ([4, 0, 0, 0] ++ dec).drop 4 = dec := by simp
  have hlen : ([4, 0, 0, 0] ++ dec).length = dec.length + 4 := by
    simp only [List.length_append, List.length_cons, List.length_nil]
    omega
  refine ⟨?_, ?_, ?_⟩
  · unfold hsParseLoop
    rw [hlen, show dec.length + 4 = (dec.length + 3) + 1 from rfl, hsParseLoopF.eq_2]
    rw [if_neg (by rw [hlen]; omega)]
    dsimp only
    rw [hfl, hdrop, if_pos rfl]
    exact hsParseLoopF_mono k (dec.length + 3) dec.length dec (by omega) (le_refl _)
  · have hstep : readerFrameStep k pongOk ([4, 0, 0, 0] ++ dec) = .skip dec := by
      unfold readerFrameStep
      rw [if_neg (by rw [hlen]; omega)]
      dsimp only
      rw [hfl, hdrop, if_pos rfl]
    unfold readerParseFrames
    rw [hlen, show dec.length + 4 = (dec.length + 3) + 1 from rfl,
      readerParseFramesF.eq_2, hstep]
    exact readerParseFramesF_mono k pongOk (dec.length + 3) dec.length dec
      (by omega) (le_refl _)
  · have htake : ([4, 0, 0, 0] ++ rest).take 4 = [4, 0, 0, 0] :=
      List.take_left' rfl
    unfold read_rpc_frame_plaintext
    rw [if_neg (by simp only [List.length_append, List.length_cons, List.length_nil]; omega)]
    dsimp only
    rw [htake, show fromLe4 [4, 0, 0, 0] = 4 from by decide, if_pos (by norm_num)]

/-- Claim C4 witness. — -/
theorem noop_padding_handling_witness :
    hsParseLoop ⟨1, 2, 3, 4, 5, 6, 7, 8, 9, 10⟩ ([4, 0, 0, 0] ++ List.replicate 8 0)
      = hsParseLoop ⟨1, 2, 3, 4, 5, 6, 7, 8, 9, 10⟩ (List.replicate 8 0)
    ∧ readerParseFrames ⟨1, 2, 3, 4, 5, 6, 7, 8, 9, 10⟩ true
        ([4, 0, 0, 0] ++ List.replicate 8 0)
      = readerParseFrames ⟨1, 2, 3, 4, 5, 6, 7, 8, 9, 10⟩ true (List.replicate 8 0)
    ∧ read_rpc_frame_plaintext ([4, 0, 0, 0] ++ []) = .error (.badLength 4) :=
  noop_padding_handling ⟨1, 2, 3, 4, 5, 6, 7, 8, 9, 10⟩ true (List.replicate 8 0) []
    (by decide)

/-- Claim C4 counterexample. —  The plaintext handshake frame reader does not
skip a bare `total_len == 4` word: with a perfectly valid frame following
it, parsing fails with a bad-length error instead of returning that frame. -/
theorem noop_padding_counterexample :
    read_rpc_frame_plaintext ([4, 0, 0, 0] ++ build_rpc_frame 0 [1, 2, 3, 4])
      = .error (.badLength 4)
    ∧ read_rpc_frame_plaintext (build_rpc_frame 0 [1, 2, 3, 4])
      = .ok ((0, [1, 2, 3, 4]), []) := by decide

/-! ## C2: what does and does not terminate the reader loop -/

/-- Claim C2 (amended). —  The reader loop terminates on EOF (returning `Ok`)
and on a decrypt error (`ProxyError::Crypto`), and the writer is then
evicted from the pool; framing problems do **not** terminate it: whenever
the decrypt step succeeds the iteration continues, an out-of-range declared
length only warns and clears the plaintext buffer, and a CRC mismatch only
warns and drops the offending frame — every time, with no once-only limit. -/
theorem reader_loop_termination (k : RpcConsts) (pongOk : Bool)
    (d : List Nat → List Nat → Option (List Nat)) (st : ReadState)
    (chunk : List Nat) (chunks : List (List Nat)) (dec : List Nat)
    {W : Type} [DecidableEq W] (ws : List W) (w : W) :
    readerLoop k pongOk d st [] = .ok (st, [])
    ∧ (readerDecryptStep d ⟨st.raw ++ chunk, st.dec, st.iv⟩ = none →
        readerLoop k pongOk d st (chunk :: chunks) = .error ())
    ∧ (∀ st2, readerDecryptStep d ⟨st.raw ++ chunk, st.dec, st.iv⟩ = some st2 →
        readerIter k pongOk d st chunk
          = some (⟨st2.raw, (readerParseFrames k pongOk st2.dec).dec, st2.iv⟩,
              (readerParseFrames k pongOk st2.dec).events))
    ∧ (¬ dec.length < 12 → fromLe4 dec ≠ 4 →
        (fromLe4 dec < 12 ∨ 16777216 < fromLe4 dec) →
        readerFrameStep k pongOk dec = .stop ⟨[.invalidLenWarn (fromLe4 dec)], []⟩)
    ∧ (¬ dec.length < 12 → fromLe4 dec ≠ 4 →
        ¬ (fromLe4 dec < 12 ∨ 16777216 < fromLe4 dec) →
        ¬ dec.length < fromLe4 dec →
        crc32 ((dec.take (fromLe4 dec)).take (fromLe4 dec - 4))
          ≠ fromLe4 ((dec.take (fromLe4 dec)).drop (fromLe4 dec - 4)) →
        readerFrameStep k pongOk dec
            = .emit (some .crcMismatchWarn) (dec.drop (fromLe4 dec))
          ∧ readerParseFrames k pongOk dec
            = .consEvent .crcMismatchWarn
                (readerParseFrames k pongOk (dec.drop (fromLe4 dec))))
    ∧ w ∉ evictWriter ws w := by
  refine ⟨rfl, ?_, ?_, ?_, ?_, ?_⟩
  · intro h
    simp only [readerLoop, readerIter, h]
  · intro st2 h
    simp only [readerIter, h]
  · intro h1 h2 h3
    unfold readerFrameStep
    rw [if_neg h1]
    dsimp only
    rw [if_neg h2, if_pos h3]
  · intro h1 h2 h3 h4 hcrc
    have hstep : readerFrameStep k pongOk dec
        = .emit (some .crcMismatchWarn) (dec.drop (fromLe4 dec)) := by
      unfold readerFrameStep
      rw [if_neg h1]
      dsimp only
      rw [if_neg h2, if_neg h3, if_neg h4]
      have hd : readerDispatchFrame k pongOk (dec.take (fromLe4 dec)) (fromLe4 dec - 4)
          = .emitEv (some .crcMismatchWarn) := by
        unfold readerDispatchFrame
        dsimp only
        rw [if_pos hcrc]
      rw [hd]
    refine ⟨hstep, ?_⟩
    obtain ⟨n, hn⟩ : ∃ n, dec.length = n + 1 := ⟨dec.length - 1, by omega⟩
    unfold readerParseFrames
    rw [hn, readerParseFramesF.eq_2, hstep]
    exact congrArg (ParsedFrames.consEvent .crcMismatchWarn)
      (readerParseFramesF_mono k pongOk n _ _
        (by simp only [List.length_drop]; omega) (le_refl _))
  · simp [evictWriter]

/-- Claim C2 witness. — -/
theorem reader_loop_termination_witness :
    readerLoop ⟨1, 2, 3, 4, 5, 6, 7, 8, 9, 10⟩ true (fun _ _ => none)
        ⟨[], [], []⟩ [] = .ok (⟨[], [], []⟩, [])
    ∧ readerLoop ⟨1, 2, 3, 4, 5, 6, 7, 8, 9, 10⟩ true (fun _ _ => none)
        ⟨[], [], []⟩ [List.replicate 16 0] = .error ()
    ∧ readerFrameStep ⟨1, 2, 3, 4, 5, 6, 7, 8, 9, 10⟩ true
        ([5, 0, 0, 0] ++ List.replicate 12 0)
        = .stop ⟨[.invalidLenWarn 5], []⟩
    ∧ (2 : Nat) ∉ evictWriter [1, 2, 3] 2 := by
  have h := reader_loop_termination ⟨1, 2, 3, 4, 5, 6, 7, 8, 9, 10⟩ true
    (fun _ _ => none) ⟨[], [], []⟩ (List.replicate 16 0) []
    ([5, 0, 0, 0] ++ List.replicate 12 0) [1, 2, 3] (2 : Nat)
  exact ⟨h.1, h.2.1 (by decide), by
    have h4 := h.2.2.2.1 (by decide) (by decide) (by decide)
    rw [show fromLe4 ([5, 0, 0, 0] ++ List.replicate 12 0) = 5 from by decide] at h4
    exact h4, h.2.2.2.2.2⟩

/-- Claim C2 counterexample. —  A run of the reader loop that hits an
out-of-range frame length in its first chunk (event `invalidLenWarn 5`),
then keeps reading and dispatches a frame from the second chunk, and also a
run in which two successive CRC-mismatching frames are both dropped — the
reader never terminates on either framing error and ends `Ok` only at EOF. -/
theorem reader_loop_termination_counterexample :
    readerLoop ⟨1, 2, 3, 4, 5, 6, 7, 8, 9, 10⟩ true (fun _ c => some c)
        ⟨[], [], List.replicate 16 0⟩
        [[5, 0, 0, 0] ++ List.replicate 12 0, build_rpc_frame 0 [9, 9, 9, 9]]
      = .ok (⟨[], [], build_rpc_frame 0 [9, 9, 9, 9]⟩,
          [.invalidLenWarn 5, .unknownRpc (fromLe4 [9, 9, 9, 9])])
    ∧ readerLoop ⟨1, 2, 3, 4, 5, 6, 7, 8, 9, 10⟩ true (fun _ c => some c)
        ⟨[], [], List.replicate 16 0⟩
        [(build_rpc_frame 0 [9, 9, 9, 9]).set 8 7,
         (build_rpc_frame 0 [9, 9, 9, 9]).set 8 7]
      = .ok (⟨[], [], (build_rpc_frame 0 [9, 9, 9, 9]).set 8 7⟩,
          [.crcMismatchWarn, .crcMismatchWarn]) := by decide

/-! ## C5: connection-registry invariants -/

theorem regRegister_fst (st : RegState) : (regRegister st).1 = st.nextId := rfl

theorem regAfter_nextId (n : Nat) :
    (regAfter n).nextId = (1 + n) % 18446744073709551616 := by
  induction n with
  | zero => decide
  | succ m ih =>
    show ((regAfter m).nextId + 1) % 18446744073709551616 = _
    rw [ih]
    omega

/-- Claim C5 (amended). —  `register` hands out `next_id` and bumps the counter
with wrapping `u64` arithmetic: the first ID is 1 and IDs strictly increase
over the first `2^64 − 1` calls (the counter wraps to 0 on the `2^64`-th
call, so unbounded monotonicity fails); `route` on an id absent from the map
— in particular on any id just passed to `unregister` — returns `false` and
leaves the registry unchanged. -/
theorem conn_registry_invariants (i j : Nat) (hij : i < j)
    (hj : j ≤ 18446744073709551614) (st : RegState) (id : Nat)
    (recvOk : Nat → Bool) :
    (regRegister (regAfter 0)).1 = 1
    ∧ (regRegister (regAfter i)).1 < (regRegister (regAfter j)).1
    ∧ (st.keys.contains id = false → regRoute recvOk st id = (false, st))
    ∧ regRoute recvOk (regUnregister st id) id = (false, regUnregister st id) := by
  refine ⟨rfl, ?_, ?_, ?_⟩
  · show (regAfter i).nextId < (regAfter j).nextId
    rw [regAfter_nextId, regAfter_nextId]
    omega
  · intro h
    have hmem : id ∉ st.keys := by simpa using h
    have hc : (st.keys.contains id = true) = False := by simp [hmem]
    simp only [regRoute, hc, if_false]
  · have hmem : id ∉ (regUnregister st id).keys := by
      simp only [regUnregister]
      intro hmem
      rw [List.mem_filter] at hmem
      simp at hmem
    have hc : ((regUnregister st id).keys.contains id = true) = False := by simp [hmem]
    simp only [regRoute, hc, if_false]

/-- Claim C5 witness. — -/
theorem conn_registry_invariants_witness :
    (regRegister (regAfter 0)).1 = 1
    ∧ (regRegister (regAfter 3)).1 < (regRegister (regAfter 7)).1
    ∧ (regRoute (fun _ => true) ⟨5, [7]⟩ 9 = (false, ⟨5, [7]⟩))
    ∧ regRoute (fun _ => true) (regUnregister ⟨5, [7, 9]⟩ 9) 9
        = (false, regUnregister ⟨5, [7, 9]⟩ 9) := by
  have h := conn_registry_invariants 3 7 (by omega) (by omega) ⟨5, [7]⟩ 9 (fun _ => true)
  have h2 := conn_registry_invariants 3 7 (by omega) (by omega) ⟨5, [7, 9]⟩ 9 (fun _ => true)
  exact ⟨h.1, h.2.1, h.2.2.1 (by decide), h2.2.2.2⟩

/-- Claim C5 counterexample. —  `next_id` is a wrapping `u64`: the `2^64`-th call
to `register` (index `2^64 − 1` from the start) returns 0, which is not
strictly greater than the first call's ID 1 — so "strictly greater than all
previously returned IDs" fails for the unbounded claim. -/
theorem conn_registry_counterexample :
    (regRegister (regAfter 0)).1 = 1
    ∧ (regRegister (regAfter 18446744073709551615)).1 = 0
    ∧ ¬ (regRegister (regAfter 18446744073709551615)).1
        > (regRegister (regAfter 0)).1 := by
  have h1 : (regRegister (regAfter 0)).1 = 1 := rfl
  have h2 : (regRegister (regAfter 18446744073709551615)).1 = 0 := by
    rw [regRegister_fst, regAfter_nextId]
  refine ⟨h1, h2, ?_⟩
  rw [h1, h2]
  omega

/-! ## C6: round-robin retry in `send_proxy_req` -/

theorem evictWriter_mem {W : Type} [DecidableEq W] (ws : List W) (w x : W) :
    x ∈ evictWriter ws w ↔ x ∈ ws ∧ x ≠ w := by
  simp [evictWriter]

theorem sendLoopF_spec {W : Type} [DecidableEq W] (fails : W → Bool) :
    ∀ fuel (ws : List W) (rr : Nat), ws.length ≤ fuel →
      (sendLoopF fails fuel ws rr = .poolEmptyErr ↔ ∀ w ∈ ws, fails w = true)
      ∧ (∀ w pool' rr', sendLoopF fails fuel ws rr = .sent w pool' rr' →
          fails w = false ∧ w ∈ ws ∧ (∀ x ∈ pool', x ∈ ws)
          ∧ ∀ x ∈ ws, x ∉ pool' → fails x = true) := by
  intro fuel
  induction fuel with
  | zero =>
    intro ws rr h
    have hw : ws = [] := List.eq_nil_of_length_eq_zero (by omega)
    subst hw
    exact ⟨by simp [sendLoopF], by intro w pool' rr' heq; simp [sendLoopF] at heq⟩
  | succ f ih =>
    intro ws rr h
    by_cases hne : ws.length = 0
    · have hw : ws = [] := List.eq_nil_of_length_eq_zero hne
      subst hw
      exact ⟨by simp [sendLoopF], by intro w pool' rr' heq; simp [sendLoopF] at heq⟩
    · rw [sendLoopF.eq_2, dif_neg hne]
      dsimp only
      have hidx : rr % ws.length < ws.length := Nat.mod_lt rr (Nat.pos_of_ne_zero hne)
      have hw0mem : ws.get ⟨rr % ws.length, hidx⟩ ∈ ws := List.get_mem ws _ _
      by_cases hf : fails (ws.get ⟨rr % ws.length, Nat.mod_lt rr (Nat.pos_of_ne_zero hne)⟩)
      · rw [if_pos hf]
        by_cases he : (evictWriter ws (ws.get ⟨rr % ws.length,
            Nat.mod_lt rr (Nat.pos_of_ne_zero hne)⟩)).length = 0
        · rw [if_pos he]
          have hall : ∀ x ∈ ws, fails x = true := by
            intro x hx
            have hnil : evictWriter ws (ws.get ⟨rr % ws.length,
                Nat.mod_lt rr (Nat.pos_of_ne_zero hne)⟩) = [] :=
              List.eq_nil_of_length_eq_zero he
            by_cases hxw : x = ws.get ⟨rr % ws.length, Nat.mod_lt rr (Nat.pos_of_ne_zero hne)⟩
            · rw [hxw]; exact hf
            · have hmem : x ∈ evictWriter ws (ws.get ⟨rr % ws.length,
                  Nat.mod_lt rr (Nat.pos_of_ne_zero hne)⟩) :=
                (evictWriter_mem _ _ _).mpr ⟨hx, hxw⟩
              rw [hnil] at hmem
              exact absurd hmem (List.not_mem_nil x)
          exact ⟨iff_of_true rfl hall,
            fun w pool' rr' heq => absurd heq (by simp)⟩
        · rw [if_neg he]
          have hlt : (evictWriter ws (ws.get ⟨rr % ws.length,
              Nat.mod_lt rr (Nat.pos_of_ne_zero hne)⟩)).length < ws.length :=
            List.length_filter_lt_length_iff_exists.mpr ⟨_, hw0mem, by simp⟩
          obtain ⟨ih1, ih2⟩ := ih (evictWriter ws (ws.get ⟨rr % ws.length,
            Nat.mod_lt rr (Nat.pos_of_ne_zero hne)⟩)) (rr + 1) (by omega)
          constructor
          · rw [ih1]
            constructor
            · intro hall x hx
              by_cases hxw : x = ws.get ⟨rr % ws.length, Nat.mod_lt rr (Nat.pos_of_ne_zero hne)⟩
              · rw [hxw]; exact hf
              · exact hall x ((evictWriter_mem ws _ x).mpr ⟨hx, hxw⟩)
            · intro hall x hx
              exact hall x ((evictWriter_mem ws _ x).mp hx).1
          · intro w pool' rr' heq
            obtain ⟨g1, g2, g3, g4⟩ := ih2 w pool' rr' heq
            refine ⟨g1, ((evictWriter_mem ws _ w).mp g2).1,
              fun x hx => ((evictWriter_mem ws _ x).mp (g3 x hx)).1, ?_⟩
            intro x hx hnx
            by_cases hxw : x = ws.get ⟨rr % ws.length, Nat.mod_lt rr (Nat.pos_of_ne_zero hne)⟩
            · rw [hxw]; exact hf
            · exact g4 x ((evictWriter_mem ws _ x).mpr ⟨hx, hxw⟩) hnx
      · rw [if_neg hf]
        rw [Bool.not_eq_true] at hf
        constructor
        · constructor
          · intro heq; exact absurd heq (by simp)
          · intro hall
            rw [hall _ hw0mem] at hf
            exact absurd hf (by simp)
        · intro w pool' rr' heq
          injection heq with h1 h2 h3
          subst h1
          subst h2
          exact ⟨hf, hw0mem, fun x hx => hx, fun x hx hnx => absurd hx hnx⟩

/-- Claim C6. —  `send_proxy_req` retries in round-robin order until a writer
accepts or the pool is exhausted: it returns the pool-empty error exactly
when every writer fails, a success returns `Ok` via a non-failing writer,
every writer dropped from the pool had failed — and in the S5 scenario
(pool `{W1, W2, W3}`, round-robin cursor dispatching to the failing `W2`),
the call succeeds and `connection_count()` afterwards returns 2. -/
theorem send_proxy_req_round_robin {W : Type} [DecidableEq W] (fails : W → Bool)
    (ws : List W) (rr : Nat) :
    (sendLoop fails ws rr = .poolEmptyErr ↔ ∀ w ∈ ws, fails w = true)
    ∧ (∀ w pool' rr', sendLoop fails ws rr = .sent w pool' rr' →
        fails w = false ∧ w ∈ ws ∧ (∀ x ∈ pool', x ∈ ws)
        ∧ ∀ x ∈ ws, x ∉ pool' → fails x = true)
    ∧ sendLoop (fun x : Nat => x == 2) [1, 2, 3] 1 = .sent 1 [1, 3] 3
    ∧ connection_count ([1, 3] : List Nat) = 2 :=
  ⟨(sendLoopF_spec fails ws.length ws rr (le_refl _)).1,
   (sendLoopF_spec fails ws.length ws rr (le_refl _)).2,
   by decide, by decide⟩

/-- Claim C6 witness. — -/
theorem send_proxy_req_round_robin_witness :
    (fun x : Nat => x == 2) 1 = false ∧ (1 : Nat) ∈ [1, 2, 3] := by
  have h := send_proxy_req_round_robin (fun x : Nat => x == 2) [1, 2, 3] 1
  have hs := h.2.1 1 [1, 3] 3 h.2.2.1
  exact ⟨hs.1, hs.2.1⟩

/-! ## C7: `RPC_HANDSHAKE_ERROR` rejects the handshake -/

/-- Claim C7. —  For every well-framed handshake-response frame whose payload
opcode is `RPC_HANDSHAKE_ERROR`, the response parser rejects with the signed
32-bit error code from the body, and `connect_one` returns the error without
pushing the writer, leaving the pool untouched. -/
theorem handshake_error_rejected (k : RpcConsts) (frame rest : List Nat)
    {W : Type} (pool : List W) (w : W)
    (hlenF : frame.length = fromLe4 frame)
    (hge : 12 ≤ fromLe4 frame) (hle : fromLe4 frame ≤ 16777216)
    (hcrc : fromLe4 (frame.drop (fromLe4 frame - 4))
      = crc32 (frame.take (fromLe4 frame - 4)))
    (hop : fromLe4 (frame.drop 8) = k.rpcHandshakeError) :
    hsParseLoop k (frame ++ rest)
        = .err (.rejected (if 16 ≤ frame.length then i32ofBytes (frame.drop 12) else -1))
    ∧ connectOneFinish (hsParseLoop k (frame ++ rest)) pool w
        = .error (.rejected
            (if 16 ≤ frame.length then i32ofBytes (frame.drop 12) else -1)) := by
  have hlen : (frame ++ rest).length = frame.length + rest.length := by simp
  have hflEq : fromLe4 (frame ++ rest) = fromLe4 frame :=
    fromLe4_append frame rest (by omega)
  have htakeF : (frame ++ rest).take (fromLe4 frame) = frame :=
    List.take_left' hlenF
  have hmain : hsParseLoop k (frame ++ rest)
      = .err (.rejected (if 16 ≤ frame.length then i32ofBytes (frame.drop 12) else -1)) := by
    unfold hsParseLoop
    obtain ⟨n, hn⟩ : ∃ n, (frame ++ rest).length = n + 1 :=
      ⟨frame.length + rest.length - 1, by rw [hlen]; omega⟩
    rw [hn, hsParseLoopF.eq_2]
    rw [if_neg (by rw [hlen]; omega)]
    dsimp only
    rw [hflEq]
    rw [if_neg (by omega), if_neg (by omega), if_neg (by rw [hlen]; omega)]
    rw [htakeF, hcrc]
    rw [if_neg (by simp), hop, if_pos rfl]
  exact ⟨hmain, by rw [hmain]; rfl⟩

/-- Claim C7 witness. — -/
theorem handshake_error_rejected_witness :
    hsParseLoop ⟨1, 2, 3, 4, 5, 6, 7, 8, 9, 10⟩
        (build_rpc_frame (-1) (u32le 4 ++ i32le (-5)) ++ [])
      = .err (.rejected (if 16 ≤ (build_rpc_frame (-1) (u32le 4 ++ i32le (-5))).length
          then i32ofBytes ((build_rpc_frame (-1) (u32le 4 ++ i32le (-5))).drop 12) else -1))
    ∧ connectOneFinish (hsParseLoop ⟨1, 2, 3, 4, 5, 6, 7, 8, 9, 10⟩
        (build_rpc_frame (-1) (u32le 4 ++ i32le (-5)) ++ [])) [101, 102] (103 : Nat)
      = .error (.rejected (if 16 ≤ (build_rpc_frame (-1) (u32le 4 ++ i32le (-5))).length
          then i32ofBytes ((build_rpc_frame (-1) (u32le 4 ++ i32le (-5))).drop 12) else -1)) :=
  handshake_error_rejected ⟨1, 2, 3, 4, 5, 6, 7, 8, 9, 10⟩
    (build_rpc_frame (-1) (u32le 4 ++ i32le (-5))) [] [101, 102] 103
    (by decide) (by decide) (by decide) (by decide) (by decide)

/-! ## C8: the encrypted residue stays below one block -/

/-- Claim C8. —  After every decrypt step of the streaming decoder — in the
encrypted-handshake reader of `connect_one` and in the steady-state reader
loop — the encrypted residue is exactly the bytes past the last complete
16-byte block: its length is `len mod 16 < 16`. -/
theorem read_state_residue (k : RpcConsts) (pongOk : Bool)
    (d : List Nat → List Nat → Option (List Nat))
    (raw dec iv : List Nat) (st : ReadState) (chunk : List Nat) :
    (∀ raw' dec' iv', hsDecryptStep d raw dec iv = some (raw', dec', iv') →
        raw' = raw.drop (raw.length / 16 * 16)
        ∧ raw'.length = raw.length % 16 ∧ raw'.length < 16)
    ∧ (∀ st', readerDecryptStep d st = some st' →
        st'.raw = st.raw.drop (st.raw.length / 16 * 16)
        ∧ st'.raw.length = st.raw.length % 16 ∧ st'.raw.length < 16)
    ∧ (∀ st' evs, readerIter k pongOk d st chunk = some (st', evs) →
        st'.raw.length < 16) := by
  have hsStep : ∀ (raw dec iv : List Nat) raw' dec' iv',
      hsDecryptStep d raw dec iv = some (raw', dec', iv') →
      raw' = raw.drop (raw.length / 16 * 16)
      ∧ raw'.length = raw.length % 16 ∧ raw'.length < 16 := by
    intro raw dec iv raw' dec' iv' h
    unfold hsDecryptStep at h
    by_cases hb : raw.length / 16 * 16 = 0
    · rw [if_pos hb] at h
      obtain ⟨h1, h2, h3⟩ : raw = raw' ∧ dec = dec' ∧ iv = iv' := by
        simpa using h
      subst h1
      exact ⟨by rw [hb, List.drop_zero], by omega, by omega⟩
    · rw [if_neg hb] at h
      cases hd : d iv (raw.take (raw.length / 16 * 16)) with
      | none => rw [hd] at h; simp at h
      | some plain =>
        rw [hd] at h
        obtain ⟨h1, h2, h3⟩ : raw.drop (raw.length / 16 * 16) = raw'
            ∧ dec ++ plain = dec'
            ∧ (raw.take (raw.length / 16 * 16)).drop (raw.length / 16 * 16 - 16) = iv' := by
          simpa using h
        subst h1
        refine ⟨rfl, ?_, ?_⟩ <;> (simp only [List.length_drop]; omega)
  have hrdStep : ∀ (st : ReadState) st', readerDecryptStep d st = some st' →
      st'.raw = st.raw.drop (st.raw.length / 16 * 16)
      ∧ st'.raw.length = st.raw.length % 16 ∧ st'.raw.length < 16 := by
    intro st st' h
    unfold readerDecryptStep at h
    by_cases hb : st.raw.length / 16 * 16 = 0
    · rw [if_pos hb] at h
      obtain rfl : st = st' := by simpa using h
      exact ⟨by rw [hb, List.drop_zero], by omega, by omega⟩
    · rw [if_neg hb] at h
      cases hd : d st.iv (st.raw.take (st.raw.length / 16 * 16)) with
      | none => rw [hd] at h; simp at h
      | some plain =>
        rw [hd] at h
        obtain rfl : (⟨st.raw.drop (st.raw.length / 16 * 16), st.dec ++ plain,
            (st.raw.take (st.raw.length / 16 * 16)).drop (st.raw.length / 16 * 16 - 16)⟩
              : ReadState) = st' := by simpa using h
        refine ⟨rfl, ?_, ?_⟩ <;> (dsimp only; simp only [List.length_drop]; omega)
  refine ⟨fun raw' dec' iv' h => hsStep raw dec iv raw' dec' iv' h,
    fun st' h => hrdStep st st' h, ?_⟩
  intro st' evs h
  unfold readerIter at h
  cases hd : readerDecryptStep d ⟨st.raw ++ chunk, st.dec, st.iv⟩ with
  | none => rw [hd] at h; simp at h
  | some st2 =>
    rw [hd] at h
    obtain ⟨h1, _⟩ : (⟨st2.raw, (readerParseFrames k pongOk st2.dec).dec, st2.iv⟩
        : ReadState) = st' ∧ (readerParseFrames k pongOk st2.dec).events = evs := by
      simpa using h
    have := (hrdStep ⟨st.raw ++ chunk, st.dec, st.iv⟩ st2 hd).2.2
    rw [← h1]
    simpa using this

/-- Claim C8 witness. — -/
theorem read_state_residue_witness :
    (List.replicate 4 7 : List Nat)
        = (List.replicate 20 7 : List Nat).drop
            ((List.replicate 20 7 : List Nat).length / 16 * 16)
    ∧ (List.replicate 4 7 : List Nat).length
        = (List.replicate 20 7 : List Nat).length % 16
    ∧ (List.replicate 4 7 : List Nat).length < 16 :=
  (read_state_residue ⟨1, 2, 3, 4, 5, 6, 7, 8, 9, 10⟩ true (fun _ c => some c)
    (List.replicate 20 7) [] (List.replicate 16 0) ⟨[], [], []⟩ []).1
    (List.replicate 4 7) (List.replicate 16 7) (List.replicate 16 7) (by decide)

/-! ## C9: hot reload and non-hot fields -/

/-- Claim C9 (amended). —  An accepted reload whose hot fields changed emits one
restart-required warning per changed non-hot field, but broadcasts the
**entire new config** as the next snapshot — so after a reload changing both
the user set and `server.port`, the published snapshot exposes the new users
*and* carries the new port value (the port change simply has no effect until
restart); and if only non-hot fields changed, no snapshot is published and
no warning is emitted at all. -/
theorem hot_reload_snapshot (old new : ProxyConfig) :
    (reloadStep old new = none ↔ HotFields.fromConfig old = HotFields.fromConfig new)
    ∧ (HotFields.fromConfig old ≠ HotFields.fromConfig new →
        reloadStep old new = some (new, warn_non_hot_changes old new))
    ∧ (old.server.port ≠ new.server.port → .portChanged ∈ warn_non_hot_changes old new)
    ∧ reloadStep cfgOld cfgNew = some (cfgNew, [.portChanged])
    ∧ cfgNew.access.users = [("alice", "s1"), ("bob", "s2")]
    ∧ cfgNew.server.port = 90 := by
  refine ⟨?_, ?_, ?_, by decide, by decide, by decide⟩
  · unfold reloadStep
    constructor
    · intro h
      by_cases hc : HotFields.fromConfig old = HotFields.fromConfig new
      · exact hc
      · rw [if_neg hc] at h; simp at h
    · intro h; rw [if_pos h]
  · intro h
    unfold reloadStep
    rw [if_neg h]
  · intro h
    simp [warn_non_hot_changes, h]

/-- Claim C9 witness. — -/
theorem hot_reload_snapshot_witness :
    reloadStep cfgOld cfgNew = some (cfgNew, warn_non_hot_changes cfgOld cfgNew)
    ∧ ReloadWarning.portChanged ∈ warn_non_hot_changes cfgOld cfgNew := by
  have h := hot_reload_snapshot cfgOld cfgNew
  exact ⟨h.2.1 (by decide), h.2.2.1 (by decide)⟩

/-- Claim C9 counterexample. —  After the reload that adds user `bob` and moves
`server.port` from 80 to 90, the published snapshot is `cfgNew` itself: it
exposes the new users but **also** the new port — contradicting "the
published snapshot exposes the new users but not the new port". -/
theorem hot_reload_snapshot_counterexample :
    reloadStep cfgOld cfgNew = some (cfgNew, [.portChanged])
    ∧ cfgNew.access.users = [("alice", "s1"), ("bob", "s2")]
    ∧ cfgNew.server.port = 90
    ∧ cfgOld.server.port = 80
    ∧ ∀ cfg warns, reloadStep cfgOld cfgNew = some (cfg, warns) →
        cfg.server.port ≠ cfgOld.server.port := by
  refine ⟨by decide, by decide, by decide, by decide, ?_⟩
  intro cfg warns h
  rw [show reloadStep cfgOld cfgNew = some (cfgNew, [.portChanged]) from by decide] at h
  obtain ⟨h1, _⟩ : cfgNew = cfg ∧ ([.portChanged] : List ReloadWarning) = warns := by
    simpa using h
  rw [← h1]
  decide

/-! ## C10: `RpcWriter::send` always advances the sequence counter -/

/-- Claim C10. —  `RpcWriter::send` increments the signed 32-bit sequence
counter exactly once per call, before padding, encryption and the socket
write: the counter advances even when the call returns a Crypto or Io
error, and the frame handed to the cipher carries the pre-increment
sequence number — so after a failed send the wire sequence numbers have a
gap (nothing was ever written with the consumed number). -/
theorem rpc_writer_send_seq (e : List Nat → List Nat → Option (List Nat))
    (ioOk : Bool) (st : WriterState) (payload : List Nat) :
    ((rpcWriterSend e ioOk st payload).1).seqNo = wrapI32 (st.seqNo + 1)
    ∧ (∀ cbuf, (rpcWriterSend e ioOk st payload).2 = .ok cbuf →
        e st.iv (build_rpc_frame st.seqNo payload
          ++ padPattern ((16 - (build_rpc_frame st.seqNo payload).length % 16) % 16))
          = some cbuf)
    ∧ (rpcWriterSend (fun _ b => some b) false ⟨List.replicate 16 0, 0⟩ [1, 2, 3, 4]).2
        = .error .ioErr
    ∧ ((rpcWriterSend (fun _ b => some b) false ⟨List.replicate 16 0, 0⟩ [1, 2, 3, 4]).1).seqNo
        = 1
    ∧ (rpcWriterSend (fun _ b => some b) true ⟨List.replicate 16 0, 1⟩ [1, 2, 3, 4]).2
        = .ok (build_rpc_frame 1 [1, 2, 3, 4])
    ∧ ((build_rpc_frame 1 [1, 2, 3, 4]).drop 4).take 4 = [1, 0, 0, 0] := by
  refine ⟨?_, ?_, by decide, by decide, by decide, by decide⟩
  · unfold rpcWriterSend
    dsimp only
    cases he : e st.iv (build_rpc_frame st.seqNo payload
        ++ padPattern ((16 - (build_rpc_frame st.seqNo payload).length % 16) % 16)) with
    | none => rfl
    | some cbuf => by_cases hio : ioOk <;> simp [hio]
  · intro cbuf h
    unfold rpcWriterSend at h
    dsimp only at h
    cases he : e st.iv (build_rpc_frame st.seqNo payload
        ++ padPattern ((16 - (build_rpc_frame st.seqNo payload).length % 16) % 16)) with
    | none => rw [he] at h; simp at h
    | some c =>
      rw [he] at h
      dsimp only at h
      by_cases hio : ioOk
      · rw [if_pos hio] at h
        dsimp only at h
        obtain rfl : c = cbuf := by simpa using h
        rfl
      · rw [if_neg hio] at h
        dsimp only at h
        simp at h

/-- Claim C10 witness. — -/
theorem rpc_writer_send_seq_witness :
    (fun (_ b : List Nat) => some b) (List.replicate 16 0)
        (build_rpc_frame 1 [1, 2, 3, 4]
          ++ padPattern ((16 - (build_rpc_frame 1 [1, 2, 3, 4]).length % 16) % 16))
      = some (build_rpc_frame 1 [1, 2, 3, 4]) := by
  have h := rpc_writer_send_seq (fun _ b => some b) true
    ⟨List.replicate 16 0, 1⟩ [1, 2, 3, 4]
  exact h.2.1 (build_rpc_frame 1 [1, 2, 3, 4]) h.2.2.2.2.1


end Telemt
